import Mathlib

/-!
Verification development for the attendance/marks reconciliation script
(`AutomationScripts/ContinuousAssesment8.py`).

The Python source is shallowly embedded as follows.

* Spreadsheet / CSV cell values are `CellVal`: missing (`None`/`NaN`),
  numeric, or string.  Numeric cells are modelled as `Int`: every value the
  pipeline manipulates (marks, 0/1 presence flags, roll numbers) is integral,
  and Python `bool` is a subtype of `int` (so `True`/`False` are modelled as
  `num 1` / `num 0`).  Fractional floating-point cell values are outside the
  model.
* Python strings are Lean `String`s (code-point lists); `str.strip`,
  `str.lower`, `in` (substring), `startswith`, `endswith`, `split` are
  re-implemented over `List Char` below, with `lower` covering the ASCII
  letters (the only case folding the data and patterns of this program use).
* A pandas `DataFrame` is a `Table`: a duplicate-free ordered column list
  plus rectangular rows; each row is an association list from column name to
  cell, whose name sequence equals the column list (`Table.WF`).
* File I/O is modelled at the `main` level: reading a spreadsheet is an
  `Except String Table` input, writing is an emitted event.  Each exception
  of the script becomes an `Except.error`.
-/

/-- Whitespace characters removed by Python `str.strip()` (ASCII range). -/
def pyWhitespace : List Char := [' ', '\t', '\n', '\r', '\x0b', '\x0c']

/-- Python `str.strip()` on the code-point list: drop leading and trailing
whitespace. -/
def pyStrip (cs : List Char) : List Char :=
  ((cs.dropWhile (fun c => pyWhitespace.contains c)).reverse.dropWhile
    (fun c => pyWhitespace.contains c)).reverse

/-- ASCII upper-to-lower case table used to model Python `str.lower()`. -/
def upperLowerPairs : List (Char × Char) :=
  [('A','a'), ('B','b'), ('C','c'), ('D','d'), ('E','e'), ('F','f'), ('G','g'),
   ('H','h'), ('I','i'), ('J','j'), ('K','k'), ('L','l'), ('M','m'), ('N','n'),
   ('O','o'), ('P','p'), ('Q','q'), ('R','r'), ('S','s'), ('T','t'), ('U','u'),
   ('V','v'), ('W','w'), ('X','x'), ('Y','y'), ('Z','z')]

/-- Lower-case one character (ASCII). -/
def lowerChar (c : Char) : Char :=
  match upperLowerPairs.find? (fun p => p.1 = c) with
  | Option.some p => p.2
  | Option.none => c

/-- Python `str.lower()` on a code-point list (ASCII letters). -/
def pyLower (cs : List Char) : List Char := cs.map lowerChar

/-- Python `s.strip().lower()` at `String` level. -/
def stripLower (s : String) : String := String.mk (pyLower (pyStrip s.data))

/-- Python substring test `sub in cs`. -/
def isSub (sub cs : List Char) : Bool :=
  cs.tails.any (fun t => sub.isPrefixOf t)

/-- Python `s.startswith(t)` at `String` level. -/
def strStarts (s t : String) : Bool := t.data.isPrefixOf s.data

/-- A spreadsheet / CSV cell value.  `none` stands for Python `None` and for
pandas `NaN` (both answer `pd.isna` with `True`).  Numeric cells carry an
`Int` (see the header comment); Python booleans are `num 1` / `num 0`. -/
inductive CellVal
  | none
  | num (n : Int)
  | str (s : String)
deriving DecidableEq, Repr

/-- The truthy vocabulary of `normalize_presence` (source lines 30-36). -/
def truthyTokens : List String :=
  ["p", "present", "yes", "y", "1", "attended", "true"]

/-- Embedding of `normalize_presence(val)` (source lines 30-36): `None` is
false; a number is compared with 0 (this also covers Python booleans, which
are numbers); any other value is stringified, stripped, lower-cased and
looked up in the truthy vocabulary. -/
def normalize_presence : CellVal → Bool
  | CellVal.none => false
  | CellVal.num n => decide (n ≠ 0)
  | CellVal.str s => truthyTokens.contains (stripLower s)

/-- First contiguous run of decimal digits of a character list, if any:
the search of `re.search(r"(\d+)", s)` (source line 22). -/
def firstDigitRun : List Char → Option (List Char)
  | [] => Option.none
  | c :: rest =>
      if c.isDigit then Option.some (c :: rest.takeWhile Char.isDigit)
      else firstDigitRun rest

/-- Numeric value of a list of decimal digits (Python `int(...)` on the
matched group; on an all-digit string it never raises). -/
def digitsToNat (cs : List Char) : Nat :=
  cs.foldl (fun acc c => acc * 10 + (c.toNat - 48)) 0

/-- Embedding of `extract_roll_number(roll)` (source lines 18-28): `None` for
a missing value (`pd.isna`), otherwise the first contiguous digit run of
`str(roll)` parsed as an integer, or `None` when there are no digits.
For a numeric cell, `str` of a Python int is its decimal rendering, whose
first digit run is the digit string of the absolute value. -/
def extract_roll_number : CellVal → Option Nat
  | CellVal.none => Option.none
  | CellVal.str s => (firstDigitRun s.data).map digitsToNat
  | CellVal.num n => Option.some n.natAbs

-- Attendance loading -------------------------------------------------------

/-- One cleaned attendance record (source lines 73-78): raw roll, name,
surname, and the four per-session presence flags `Session 1` .. `Session 4`
in order. -/
structure AttRecord where
  rollRaw : String
  name : String
  surname : String
  sessions : List Bool
deriving DecidableEq, Repr

/-- Session column label: `SESSION_PREFIX` (`"Session "`) followed by the
decimal session number (source line 14). -/
def sessionLabel (n : Nat) : String := "Session " ++ toString n

/-- Header-row test of `load_attendance` (source line 50): the row is
non-empty and one of its first three cells, stripped and lower-cased,
starts with `roll`. -/
def headerPred (row : List String) : Bool :=
  decide (1 ≤ row.length) &&
    (row.take 3).any (fun c => strStarts (stripLower c) ("roll"))

/-- The `enumerate` loop locating the header row (source lines 48-52),
threading the running index. -/
def findHeader (i : Nat) : List (List String) → Option Nat
  | [] => Option.none
  | row :: rest => if headerPred row then Option.some i else findHeader (i + 1) rest

/-- Presence cell of one raw attendance row for 1-based session number
`sn` (source lines 69-72): column index `3 + (sn - 1) * 2`; a row too short
for that index contributes `None`. -/
def presenceCell (row : List String) (sn : Nat) : CellVal :=
  match row.get? (3 + (sn - 1) * 2) with
  | Option.some v => CellVal.str v
  | Option.none => CellVal.none

/-- Build one cleaned record from a raw CSV row with at least 3 cells
(source lines 64-78). -/
def mkRecord (row : List String) : AttRecord :=
  { rollRaw := String.mk (pyStrip (row.getD 0 ("")).data)
    name := String.mk (pyStrip (row.getD 1 ("")).data)
    surname := String.mk (pyStrip (row.getD 2 ("")).data)
    sessions := (List.range 4).map (fun i => normalize_presence (presenceCell row (i + 1))) }

/-- The `for` loop building `cleaned` (source lines 60-78): rows with fewer
than 3 cells are skipped (`not row or len(row) < 3`). -/
def buildClean : List (List String) → List AttRecord
  | [] => []
  | row :: rest =>
      if row.length < 3 then buildClean rest
      else mkRecord row :: buildClean rest

/-- The `__roll_num_key` of a record (source line 81): `extract_roll_number`
applied to the (already stripped) raw roll string. -/
def attKey (r : AttRecord) : Option Nat :=
  extract_roll_number (CellVal.str r.rollRaw)

/-- Embedding of `load_attendance(path)` (source lines 38-82) on the parsed
CSV rows.  The header row is located; failing that the function raises.
Data starts at `header_idx + 3`; short rows are skipped.  A header row with
no data rows below it yields an empty `cleaned` list, for which
`pd.DataFrame([])` has no columns at all, so line 81
(`df["Roll No."]`) raises a `KeyError` that propagates out of the loader. -/
def load_attendance (rows : List (List String)) : Except String (List AttRecord) :=
  match findHeader 0 rows with
  | Option.none => Except.error ("Could not find attendance header row with Roll No.")
  | Option.some i =>
      let recs := buildClean (rows.drop (i + 3))
      if recs.isEmpty then Except.error ("KeyError: Roll No.")
      else Except.ok recs

/-- Name of the helper join-key column (source lines 81, 105). -/
def keyColName : String := "__roll_num_key"

/-- Column labels of the attendance `DataFrame` produced by
`load_attendance` (source lines 73-81). -/
def attColumns : List String :=
  ["Roll No.", "Name", "Surname", sessionLabel 1, sessionLabel 2,
   sessionLabel 3, sessionLabel 4, keyColName]

/-- A Python boolean as a cell value (`bool` is a subtype of `int`). -/
def boolCell (b : Bool) : CellVal := CellVal.num (if b then 1 else 0)

/-- A key as stored in a pandas column: the integer, or `NaN` for a missing
key. -/
def keyCell : Option Nat → CellVal
  | Option.some k => CellVal.num k
  | Option.none => CellVal.none

/-- Value of one attendance-`DataFrame` column for one record. -/
def attCellValue (r : AttRecord) (c : String) : CellVal :=
  if c = "Roll No." then CellVal.str r.rollRaw
  else if c = "Name" then CellVal.str r.name
  else if c = "Surname" then CellVal.str r.surname
  else if c = sessionLabel 1 then boolCell (r.sessions.getD 0 false)
  else if c = sessionLabel 2 then boolCell (r.sessions.getD 1 false)
  else if c = sessionLabel 3 then boolCell (r.sessions.getD 2 false)
  else if c = sessionLabel 4 then boolCell (r.sessions.getD 3 false)
  else if c = keyColName then keyCell (attKey r)
  else CellVal.none

/-- Embedding of `attendance_df.set_index("__roll_num_key")[session_col]
.to_dict()` looked up at integer key `k` (source line 110).  A Python dict
built by iterating the rows in order keeps, for each repeated key, the value
of the LAST row, hence the search over the reversed record list.  Records
whose key is unset sit under `NaN` dict keys and are never looked up (rows
with an unresolvable key are skipped before the lookup, source line 124). -/
def attendance_map (att : List AttRecord) (sessionCol : String) (k : Nat) : Option CellVal :=
  match att.reverse.find? (fun r => attKey r = Option.some k) with
  | Option.some r => Option.some (attCellValue r sessionCol)
  | Option.none => Option.none

-- Score tables (pandas DataFrames) ----------------------------------------

/-- One row of a `DataFrame`: the cells in column order, each paired with
its column name (the name sequence of a well-formed row equals the table's
column list). -/
abbrev Row := List (String × CellVal)

/-- A pandas `DataFrame`: ordered column labels and the rows. -/
structure Table where
  cols : List String
  rows : List Row
deriving DecidableEq, Repr

/-- Well-formedness every real `DataFrame` enjoys: rows carry exactly the
table's columns in order, and column labels are pairwise distinct
(`pd.read_excel` mangles duplicate labels). -/
def Table.WF (t : Table) : Prop :=
  (∀ r ∈ t.rows, r.map Prod.fst = t.cols) ∧ t.cols.Nodup

instance (t : Table) : Decidable t.WF := by
  unfold Table.WF; infer_instance

/-- Label-based cell read (`row.get(c, None)` / `df.at`): first cell of the
row carrying the label, `None` when the label is absent. -/
def getCell (row : Row) (c : String) : CellVal :=
  match row.find? (fun p => p.1 = c) with
  | Option.some p => p.2
  | Option.none => CellVal.none

/-- Label-based cell write (`df.at[idx, c] = v`): replace the value of every
cell labelled `c` (on well-formed rows there is at most one); writing to an
absent label leaves the row unchanged. -/
def setCell (row : Row) (c : String) (v : CellVal) : Row :=
  row.map (fun p => if p.1 = c then (p.1, v) else p)

/-- Column assignment `df[c] = f(row)` (source line 105): overwrite the
column in place when it exists, else append it at the end of the column
order. -/
def setColumn (t : Table) (c : String) (f : Row → CellVal) : Table :=
  if c ∈ t.cols then
    { cols := t.cols, rows := t.rows.map (fun r => setCell r c (f r)) }
  else
    { cols := t.cols ++ [c], rows := t.rows.map (fun r => r ++ [(c, f r)]) }

/-- Create a column holding integer `0` when it is absent (source lines
112-119), preserving existing columns and appending at the end. -/
def ensureCol (t : Table) (c : String) : Table :=
  if c ∈ t.cols then t
  else { cols := t.cols ++ [c], rows := t.rows.map (fun r => r ++ [(c, CellVal.num 0)]) }

/-- Column removal `df.drop(columns=[c], errors="ignore")` (source line
137): delete every cell and label named `c`; absent labels are ignored. -/
def dropColumn (t : Table) (c : String) : Table :=
  { cols := t.cols.filter (fun c2 => decide (c2 ≠ c)),
    rows := t.rows.map (fun r => r.filter (fun p => decide (p.1 ≠ c))) }

/-- The alias list for the roll column (source line 15). -/
def ROLL_ALIASES : List String := ["Roll", "Roll No", "Roll No.", "RollNumber"]

/-- Embedding of `find_roll_column(df)` (source lines 84-94): first alias
(outer loop) that some column matches exactly modulo strip/lower-case, the
matching column being the first such; otherwise the first column whose
stripped lower-cased name contains the substring `roll`; otherwise `None`. -/
def find_roll_column (cols : List String) : Option String :=
  match ROLL_ALIASES.findSome?
      (fun a => cols.find? (fun c => stripLower c = stripLower a)) with
  | Option.some c => Option.some c
  | Option.none => cols.find? (fun c => isSub (("roll").data) (stripLower c).data)

/-- The rubric: parameter column names with their fixed point values, in the
source's insertion order (source lines 8-13). -/
def PARAM_MARKS : List (String × Int) :=
  [("Timely completion, punctuality", 2),
   ("Performance, involvement, efficiency", 4),
   ("Oral Presentation", 3),
   ("Documentation, neatness", 1)]

/-- Name of the total column (source line 16). -/
def TOTAL_COL_NAME : String := "Total"

/-- Read an integer key back from the helper column, as the row loop does
(source lines 123-124): a `None`/`NaN` cell means no valid roll.  The cells
of this column are always `keyCell` images (`NaN` or a non-negative
integer). -/
def cellKey : CellVal → Option Nat
  | CellVal.num n => if 0 ≤ n then Option.some n.toNat else Option.none
  | _ => Option.none

/-- Numeric reading of a just-written rubric cell for the total sum
(source line 133). -/
def cellNum : CellVal → Int
  | CellVal.num n => n
  | _ => 0

/-- The rubric overwrite of the row loop (source lines 130-131): write every
rubric parameter with its mark (if present) or 0, in rubric order. -/
def markedRow1 (present : Bool) (row : Row) : Row :=
  PARAM_MARKS.foldl
    (fun r pm => setCell r pm.1 (CellVal.num (if present then pm.2 else 0))) row

/-- The total recomputation (source line 133): sum of the just-written
rubric cells. -/
def rowTotal (row1 : Row) : Int :=
  PARAM_MARKS.foldl (fun acc pm => acc + cellNum (getCell row1 pm.1)) 0

/-- The body of the row loop of `process_experiment` (source lines 122-134)
for one row: skip the row when its key is missing or unknown to the
attendance map; otherwise overwrite the rubric (`markedRow1`) and then the
total (`rowTotal` of the updated row). -/
def markRow (att : List AttRecord) (sessionCol : String) (row : Row) : Row :=
  match cellKey (getCell row keyColName) with
  | Option.none => row
  | Option.some k =>
      match attendance_map att sessionCol k with
      | Option.none => row
      | Option.some v =>
          setCell (markedRow1 (normalize_presence v) row) TOTAL_COL_NAME
            (CellVal.num (rowTotal (markedRow1 (normalize_presence v) row)))

/-- Stage 1 of `process_experiment` (source line 105): write the helper key
column from the detected roll column. -/
def addKeyCol (t : Table) (rollCol : String) : Table :=
  setColumn t keyColName (fun r => keyCell (extract_roll_number (getCell r rollCol)))

/-- Stage 2 of `process_experiment` (source lines 112-119): make sure the
four rubric columns and the total column exist. -/
def ensureAll (t : Table) : Table :=
  ensureCol (PARAM_MARKS.foldl (fun acc pm => ensureCol acc pm.1) t) TOTAL_COL_NAME

/-- Stage 3 of `process_experiment` (source lines 122-134): the row loop. -/
def markAll (t : Table) (att : List AttRecord) (sessionCol : String) : Table :=
  { cols := t.cols, rows := t.rows.map (markRow att sessionCol) }

/-- Embedding of the table transformation of `process_experiment` (source
lines 96-137).  Reading the input file and writing the output file are
modelled at the `main` level; every uncaught Python exception of the body is
an `Except.error`:
* no roll column (source lines 100-102);
* `session_col` absent from the attendance columns (source lines 108-109);
* `session_col` equal to the helper key column itself: line 110 first makes
  that column the index (removing it from the columns) and then subscripts
  with it, raising a `KeyError`.
The successful result is the table after key-column write, column creation,
the row loop, and helper-column drop. -/
def process_experiment (t : Table) (att : List AttRecord) (sessionCol : String) :
    Except String Table :=
  match find_roll_column t.cols with
  | Option.none => Except.error ("No roll number column found.")
  | Option.some rollCol =>
      if sessionCol ∈ attColumns then
        if sessionCol = keyColName then Except.error ("KeyError: __roll_num_key")
        else
          Except.ok (dropColumn (markAll (ensureAll (addKeyCol t rollCol)) att sessionCol) keyColName)
      else Except.error ("Session column not found in attendance data.")

-- Filename handling and the main loop --------------------------------------

/-- Python `cs.split(sep)` for a one-character separator, on code points:
the (always non-empty) list of chunks between occurrences of `sep`. -/
def splitOnSep (sep : Char) : List Char → List (List Char)
  | [] => [[]]
  | c :: rest =>
      match splitOnSep sep rest with
      | [] => [[]]
      | g :: gs => if c = sep then [] :: g :: gs else (c :: g) :: gs

/-- Stem of `os.path.splitext(p)` for a bare filename: cut at the last dot,
unless every character before that dot is itself a dot (the leading-dots
rule of `genericpath._splitext`), in which case the whole name is the
stem. -/
def splitextStem (cs : List Char) : List Char :=
  match cs.reverse.findIdx? (fun c => c = '.') with
  | Option.none => cs
  | Option.some rj =>
      let j := cs.length - 1 - rj
      if (cs.take j).any (fun c => decide (c ≠ '.')) then cs.take j else cs

/-- The filename filter of `main` (source line 158): keep names that
lower-case to an `experiment_` start and an `.xls`/`.xlsx` end. -/
def nameFilter (fname : List Char) : Bool :=
  (("experiment_").data.isPrefixOf (pyLower fname)) &&
    ((((".xls").data.isSuffixOf (pyLower fname))) ||
      (((".xlsx").data.isSuffixOf (pyLower fname))))

/-- What `main` decides to do with one directory entry. -/
inductive FileAction
  | skipSilent
  | skipWarn
  | process (sessionCol : String)
deriving DecidableEq, Repr

/-- Embedding of the per-filename dispatch of `main` (source lines 157-165):
names failing the filter are skipped silently; otherwise
`num = os.path.splitext(fname)[0].split("_")[1]` is taken (its failure -
the guarded `except`, reachable only when the stem has no underscore at
all - would skip with a warning), and the file is processed with session
column `"Session " + num`. -/
def classifyFilename (fname : List Char) : FileAction :=
  if nameFilter fname = false then FileAction.skipSilent
  else
    match (splitOnSep '_' (splitextStem fname)).get? 1 with
    | Option.some num => FileAction.process (String.mk (("Session ").data ++ num))
    | Option.none => FileAction.skipWarn

/-- One directory entry as `main` sees it: the filename, the outcome of
reading it as a table (`pd.read_excel`, which may raise), and whether the
final `to_excel` write would succeed. -/
structure FileInput where
  fname : List Char
  readResult : Except String Table
  writeOk : Bool
deriving Repr

/-- Observable per-file outcomes of the run: a fully transformed table
written out under the file's name, a caught per-file error reported with the
filename (source lines 181-182), or the naming warning (source line 164). -/
inductive Event
  | written (fname : List Char) (t : Table)
  | fileError (fname : List Char) (msg : String)
  | skipWarned (fname : List Char)
deriving DecidableEq, Repr

/-- Result of a run: a fatal abort before/while loading attendance (nothing
processed, nothing written), or a completed pass over the directory with its
event list. -/
inductive RunResult
  | fatal (msg : String)
  | completed (events : List Event)
deriving Repr, DecidableEq

/-- The events one directory entry contributes (source lines 157-182): the
whole body of the loop runs under the per-file `try`; an exception from
reading, transforming or writing becomes one reported `fileError` and
nothing is written for that file (the write is the last step of
`process_experiment`). -/
def perFileEvents (att : List AttRecord) (f : FileInput) : List Event :=
  match classifyFilename f.fname with
  | FileAction.skipSilent => []
  | FileAction.skipWarn => [Event.skipWarned f.fname]
  | FileAction.process sessionCol =>
      match f.readResult with
      | Except.error e => [Event.fileError f.fname e]
      | Except.ok t =>
          match process_experiment t att sessionCol with
          | Except.error e => [Event.fileError f.fname e]
          | Except.ok t2 =>
              if f.writeOk then [Event.written f.fname t2]
              else [Event.fileError f.fname ("Write failed.")]

/-- The sequential directory loop of `main` (source lines 157-182),
accumulating events in order. -/
def mainLoop (att : List AttRecord) : List FileInput → List Event → List Event
  | [], acc => acc
  | f :: fs, acc => mainLoop att fs (acc ++ perFileEvents att f)

/-- Embedding of `main` (source lines 144-182): a missing attendance file
aborts (source lines 151-152); a `load_attendance` failure (header not
found, or the empty-data `KeyError`) aborts; otherwise the directory is
walked sequentially.  The dead re-check of `__roll_num_key` at source lines
154-155 never fires (the loader always creates the key). -/
def mainModel (attendanceExists : Bool) (attRows : List (List String))
    (files : List FileInput) : RunResult :=
  if attendanceExists = false then RunResult.fatal ("Attendance file not found.")
  else
    match load_attendance attRows with
    | Except.error e => RunResult.fatal e
    | Except.ok att => RunResult.completed (mainLoop att files [])

-- Lemmas: extraction and normalization --------------------------------------

theorem firstDigitRun_none (cs : List Char) (h : ∀ c ∈ cs, c.isDigit = false) :
    firstDigitRun cs = Option.none := by
  induction cs with
  | nil => rfl
  | cons c rest ih =>
      have hc : c.isDigit = false := h c (List.mem_cons_self c rest)
      simp [firstDigitRun, hc]
      exact ih (fun x hx => h x (List.mem_cons_of_mem c hx))

theorem firstDigitRun_found (pre : List Char) (d : Char) (post : List Char)
    (hpre : ∀ c ∈ pre, c.isDigit = false) (hd : d.isDigit = true) :
    firstDigitRun (pre ++ d :: post) = Option.some (d :: post.takeWhile Char.isDigit) := by
  induction pre with
  | nil => simp [firstDigitRun, hd]
  | cons c rest ih =>
      have hc : c.isDigit = false := hpre c (List.mem_cons_self c rest)
      simp only [List.cons_append, firstDigitRun, hc]
      simp only [Bool.false_eq_true, if_false]
      exact ih (fun x hx => hpre x (List.mem_cons_of_mem c hx))

/-- C7.  `extract_roll_number` yields the first contiguous run of decimal
digits of the token parsed as an integer, and no key when the token has no
digits; in particular `CS-014` and `014` both yield 14 and `absent` yields
no key. -/
theorem c7_extract_roll_number :
    (∀ s : String, (∀ c ∈ s.data, c.isDigit = false) →
        extract_roll_number (CellVal.str s) = Option.none)
    ∧ (∀ (pre : List Char) (d : Char) (post : List Char),
        (∀ c ∈ pre, c.isDigit = false) → d.isDigit = true →
        extract_roll_number (CellVal.str (String.mk (pre ++ d :: post)))
          = Option.some (digitsToNat (d :: post.takeWhile Char.isDigit)))
    ∧ extract_roll_number (CellVal.str ("CS-014")) = Option.some 14
    ∧ extract_roll_number (CellVal.str ("014")) = Option.some 14
    ∧ extract_roll_number (CellVal.str ("absent")) = Option.none := by
  refine ⟨?_, ?_, by decide, by decide, by decide⟩
  · intro s h
    simp [extract_roll_number, firstDigitRun_none s.data h]
  · intro pre d post hpre hd
    simp [extract_roll_number, firstDigitRun_found pre d post hpre hd]

theorem c7_witness :
    ((∀ c ∈ ("absentee").data, c.isDigit = false)
      ∧ extract_roll_number (CellVal.str ("absentee")) = Option.none)
    ∧ ((∀ c ∈ (['C', 'S', '-']), c.isDigit = false) ∧ ('0').isDigit = true
      ∧ extract_roll_number (CellVal.str (String.mk (['C', 'S', '-'] ++ '0' :: ['1', '4'])))
          = Option.some (digitsToNat ('0' :: (['1', '4']).takeWhile Char.isDigit))) :=
  ⟨⟨by decide, c7_extract_roll_number.1 ("absentee") (by decide)⟩,
   ⟨by decide, by decide,
    c7_extract_roll_number.2.1 (['C', 'S', '-']) '0' (['1', '4']) (by decide) (by decide)⟩⟩

/-- C8.  `normalize_presence` is true exactly on non-zero numbers and on
strings whose stripped lower-cased form is in the truthy vocabulary; the
spec's examples evaluate as claimed (with the float `1.0` represented by the
integral cell `num 1`); and a presence column index out of range for a short
attendance row yields absent (`false`), not an error. -/
theorem c8_normalize_presence :
    (∀ v : CellVal, normalize_presence v = true ↔
      ((∃ n : Int, v = CellVal.num n ∧ n ≠ 0)
        ∨ (∃ s : String, v = CellVal.str s ∧ stripLower s ∈ truthyTokens)))
    ∧ normalize_presence (CellVal.str ("P")) = true
    ∧ normalize_presence (CellVal.str ("Yes")) = true
    ∧ normalize_presence (CellVal.str ("1")) = true
    ∧ normalize_presence (CellVal.num 1) = true
    ∧ normalize_presence (CellVal.str ("attended")) = true
    ∧ normalize_presence (CellVal.str ("")) = false
    ∧ normalize_presence (CellVal.str ("0")) = false
    ∧ normalize_presence (CellVal.num 0) = false
    ∧ normalize_presence (CellVal.str ("absent")) = false
    ∧ normalize_presence CellVal.none = false
    ∧ (∀ (row : List String) (i : Nat), i < 4 → row.length ≤ 3 + i * 2 →
        (mkRecord row).sessions.getD i false = false) := by
  refine ⟨?_, by decide, by decide, by decide, by decide, by decide, by decide,
    by decide, by decide, by decide, by decide, ?_⟩
  · intro v
    cases v with
    | none => simp [normalize_presence]
    | num n => simp [normalize_presence]
    | str s => simp [normalize_presence, List.elem_iff]
  · intro row i hi hlen
    have hcell : presenceCell row (i + 1) = CellVal.none := by
      unfold presenceCell
      have : row.get? (3 + (i + 1 - 1) * 2) = Option.none := by
        rw [List.get?_eq_none]
        omega
      rw [this]
    have hget : (mkRecord row).sessions.getD i false
        = normalize_presence (presenceCell row (i + 1)) := by
      unfold mkRecord
      simp only [List.getD, List.get?_eq_getElem?, List.getElem?_map]
      have hr : (List.range 4)[i]? = Option.some i := by
        rw [List.getElem?_range hi]
      rw [hr]
      rfl
    rw [hget, hcell]
    rfl

theorem c8_witness :
    (0 : Nat) < 4 ∧ ([("14"), ("Jane"), ("Doe")] : List String).length ≤ 3 + 0 * 2
      ∧ (mkRecord ([("14"), ("Jane"), ("Doe")])).sessions.getD 0 false = false :=
  ⟨by decide, by decide,
   c8_normalize_presence.2.2.2.2.2.2.2.2.2.2.2 ([("14"), ("Jane"), ("Doe")]) 0
     (by decide) (by decide)⟩

/-- C10.  When several attendance rows normalize to the same roll key, the
dict built from `set_index(...).to_dict()` keeps the value of the LAST such
row in file order: every earlier duplicate is shadowed in every join. -/
theorem c10_attendance_last_wins (att1 att2 : List AttRecord) (r : AttRecord)
    (sessionCol : String) (k : Nat)
    (hk : attKey r = Option.some k)
    (h2 : ∀ r2 ∈ att2, attKey r2 ≠ Option.some k) :
    attendance_map (att1 ++ r :: att2) sessionCol k
      = Option.some (attCellValue r sessionCol) := by
  unfold attendance_map
  have hrev : (att1 ++ r :: att2).reverse = att2.reverse ++ r :: att1.reverse := by
    simp
  rw [hrev, List.find?_append]
  have hnone : att2.reverse.find? (fun r2 => attKey r2 = Option.some k) = Option.none := by
    rw [List.find?_eq_none]
    intro x hx
    simp only [decide_eq_true_eq]
    exact h2 x (List.mem_reverse.mp hx)
  rw [hnone]
  have hfind : (r :: att1.reverse).find? (fun r2 => attKey r2 = Option.some k)
      = Option.some r := by
    rw [List.find?_cons_of_pos]
    simp [hk]
  rw [hfind]
  rfl

def c10recA : AttRecord :=
  { rollRaw := ("07")
    name := ("a")
    surname := ("b")
    sessions := [true, true, true, true] }

def c10recB : AttRecord :=
  { rollRaw := ("7b")
    name := ("x")
    surname := ("y")
    sessions := [false, false, false, false] }

theorem c10_witness :
    attKey c10recB = Option.some 7
    ∧ attendance_map ([c10recA] ++ c10recB :: []) (sessionLabel 1) 7
      = Option.some (attCellValue c10recB (sessionLabel 1)) :=
  ⟨by decide,
   c10_attendance_last_wins [c10recA] [] c10recB (sessionLabel 1) 7
     (by decide) (by intro r2 h; cases h)⟩

-- Lemmas: attendance loading ------------------------------------------------

theorem findHeader_eq_none (rows : List (List String)) (off : Nat)
    (h : ∀ r ∈ rows, headerPred r = false) : findHeader off rows = Option.none := by
  induction rows generalizing off with
  | nil => rfl
  | cons row rest ih =>
      have hr : headerPred row = false := h row (List.mem_cons_self row rest)
      simp only [findHeader, hr, Bool.false_eq_true, if_false]
      exact ih (off + 1) (fun x hx => h x (List.mem_cons_of_mem row hx))

theorem findHeader_eq_some (rows : List (List String)) (off i : Nat)
    (hlen : i < rows.length)
    (hi : headerPred (rows.getD i []) = true)
    (hfirst : ∀ j, j < i → headerPred (rows.getD j []) = false) :
    findHeader off rows = Option.some (off + i) := by
  induction rows generalizing off i with
  | nil => simp at hlen
  | cons row rest ih =>
      cases i with
      | zero =>
          have hrow : headerPred row = true := by simpa using hi
          simp [findHeader, hrow]
      | succ i2 =>
          have hrow : headerPred row = false := by
            have := hfirst 0 (Nat.succ_pos i2)
            simpa using this
          simp only [findHeader, hrow, Bool.false_eq_true, if_false]
          have hlen2 : i2 < rest.length := by simpa using hlen
          have hi2 : headerPred (rest.getD i2 []) = true := by simpa using hi
          have hfirst2 : ∀ j, j < i2 → headerPred (rest.getD j []) = false := by
            intro j hj
            have := hfirst (j + 1) (Nat.succ_lt_succ hj)
            simpa using this
          rw [ih (off + 1) i2 hlen2 hi2 hfirst2]
          congr 1
          omega

theorem buildClean_eq_filter (l : List (List String)) :
    buildClean l = (l.filter (fun r => decide (3 ≤ r.length))).map mkRecord := by
  induction l with
  | nil => rfl
  | cons row rest ih =>
      by_cases h : row.length < 3
      · have hf : decide (3 ≤ row.length) = false := by
          simp only [decide_eq_false_iff_not]
          omega
        simp only [buildClean, if_pos h, List.filter_cons, hf, Bool.false_eq_true, if_false]
        exact ih
      · have hf : decide (3 ≤ row.length) = true := by
          simp only [decide_eq_true_eq]
          omega
        simp only [buildClean, if_neg h, List.filter_cons, hf, if_true, List.map_cons]
        rw [ih]

/-- C6.  `load_attendance` selects as header the first row one of whose
first three cells starts (stripped, case-folded) with `roll`; with no such
row it fails with the header-not-found error; on success the records are
exactly the rows from index `header + 3` on that have at least 3 cells, in
order. -/
theorem c6_load_attendance (rows : List (List String)) :
    ((∀ r ∈ rows, headerPred r = false) →
      load_attendance rows
        = Except.error ("Could not find attendance header row with Roll No."))
    ∧ (∀ i, i < rows.length → headerPred (rows.getD i []) = true →
        (∀ j, j < i → headerPred (rows.getD j []) = false) →
        ∀ recs, load_attendance rows = Except.ok recs →
          recs = ((rows.drop (i + 3)).filter (fun r => decide (3 ≤ r.length))).map mkRecord)
    ∧ (∀ i, i < rows.length → headerPred (rows.getD i []) = true →
        (∀ j, j < i → headerPred (rows.getD j []) = false) →
        ((rows.drop (i + 3)).filter (fun r => decide (3 ≤ r.length))).map mkRecord ≠ [] →
        load_attendance rows
          = Except.ok (((rows.drop (i + 3)).filter (fun r => decide (3 ≤ r.length))).map mkRecord)) := by
  refine ⟨?_, ?_, ?_⟩
  · intro h
    unfold load_attendance
    rw [findHeader_eq_none rows 0 h]
  · intro i hlen hi hfirst recs hok
    unfold load_attendance at hok
    rw [findHeader_eq_some rows 0 i hlen hi hfirst] at hok
    simp only [Nat.zero_add] at hok
    rw [buildClean_eq_filter] at hok
    by_cases he : (((rows.drop (i + 3)).filter (fun r => decide (3 ≤ r.length))).map mkRecord).isEmpty
    · rw [if_pos he] at hok
      cases hok
    · rw [if_neg he] at hok
      cases hok
      rfl
  · intro i hlen hi hfirst hne
    unfold load_attendance
    rw [findHeader_eq_some rows 0 i hlen hi hfirst]
    simp only [Nat.zero_add]
    rw [buildClean_eq_filter]
    have he : (((rows.drop (i + 3)).filter (fun r => decide (3 ≤ r.length))).map mkRecord).isEmpty = false := by
      cases hl : ((rows.drop (i + 3)).filter (fun r => decide (3 ≤ r.length))).map mkRecord with
      | nil => exact absurd hl hne
      | cons a as => rfl
    rw [he]
    rfl

def c6rows : List (List String) :=
  [[("x")], [("Roll No."), ("Name"), ("Surname")], [], [],
   [("14"), (" Jane"), ("Doe"), ("P")], [("y")]]

theorem c6_witness :
    (1 < c6rows.length ∧ headerPred (c6rows.getD 1 []) = true
      ∧ (∀ j, j < 1 → headerPred (c6rows.getD j []) = false)
      ∧ ((c6rows.drop (1 + 3)).filter (fun r => decide (3 ≤ r.length))).map mkRecord ≠ [])
    ∧ load_attendance c6rows
        = Except.ok (((c6rows.drop (1 + 3)).filter (fun r => decide (3 ≤ r.length))).map mkRecord) :=
  ⟨⟨by decide, by decide,
    by intro j hj; interval_cases j; decide, by decide⟩,
   (c6_load_attendance c6rows).2.2 1 (by decide) (by decide)
     (by intro j hj; interval_cases j; decide) (by decide)⟩

-- Lemmas: association-list rows ---------------------------------------------

theorem getCell_cons (p : String × CellVal) (r : Row) (c : String) :
    getCell (p :: r) c = if p.1 = c then p.2 else getCell r c := by
  by_cases h : p.1 = c
  · rw [if_pos h]
    unfold getCell
    rw [List.find?_cons_of_pos]
    simpa using h
  · rw [if_neg h]
    unfold getCell
    rw [List.find?_cons_of_neg]
    simpa using h

theorem setCell_cons (p : String × CellVal) (r : Row) (c : String) (v : CellVal) :
    setCell (p :: r) c v = (if p.1 = c then (p.1, v) else p) :: setCell r c v := by
  rfl

theorem getCell_setCell_eq (r : Row) (c : String) (v : CellVal)
    (h : c ∈ r.map Prod.fst) : getCell (setCell r c v) c = v := by
  induction r with
  | nil => simp at h
  | cons p rest ih =>
      rw [setCell_cons]
      by_cases hp : p.1 = c
      · rw [if_pos hp, getCell_cons]
        simp [hp]
      · have h2 : c ∈ rest.map Prod.fst := by
          simp only [List.map_cons, List.mem_cons] at h
          cases h with
          | inl heq => exact absurd heq.symm hp
          | inr hm => exact hm
        rw [if_neg hp, getCell_cons, if_neg hp]
        exact ih h2

theorem getCell_setCell_ne (r : Row) (c c2 : String) (v : CellVal)
    (h : c2 ≠ c) : getCell (setCell r c v) c2 = getCell r c2 := by
  induction r with
  | nil => rfl
  | cons p rest ih =>
      rw [setCell_cons, getCell_cons (p := p)]
      by_cases hp : p.1 = c
      · have hne : ¬ p.1 = c2 := by rw [hp]; exact fun hh => h hh.symm
        rw [if_pos hp, getCell_cons]
        simp only [if_neg hne]
        exact ih
      · rw [if_neg hp, getCell_cons]
        by_cases hc2 : p.1 = c2
        · rw [if_pos hc2, if_pos hc2]
        · rw [if_neg hc2, if_neg hc2]
          exact ih

theorem setCell_names (r : Row) (c : String) (v : CellVal) :
    (setCell r c v).map Prod.fst = r.map Prod.fst := by
  induction r with
  | nil => rfl
  | cons p rest ih =>
      rw [setCell_cons]
      by_cases hp : p.1 = c
      · simp only [if_pos hp, List.map_cons]
        rw [ih]
      · simp only [if_neg hp, List.map_cons]
        rw [ih]

theorem getCell_append_left (r e : Row) (c : String)
    (h : c ∈ r.map Prod.fst) : getCell (r ++ e) c = getCell r c := by
  induction r with
  | nil => simp at h
  | cons p rest ih =>
      rw [List.cons_append, getCell_cons, getCell_cons]
      by_cases hp : p.1 = c
      · rw [if_pos hp, if_pos hp]
      · have h2 : c ∈ rest.map Prod.fst := by
          simp only [List.map_cons, List.mem_cons] at h
          cases h with
          | inl heq => exact absurd heq.symm hp
          | inr hm => exact hm
        rw [if_neg hp, if_neg hp]
        exact ih h2

theorem getCell_append_right (r e : Row) (c : String)
    (h : c ∉ r.map Prod.fst) : getCell (r ++ e) c = getCell e c := by
  induction r with
  | nil => rfl
  | cons p rest ih =>
      have hp : ¬ p.1 = c := by
        intro hh
        exact h (by simp [hh])
      have h2 : c ∉ rest.map Prod.fst := by
        intro hm
        exact h (by simp [hm])
      rw [List.cons_append, getCell_cons, if_neg hp]
      exact ih h2

theorem getCell_filter_ne (r : Row) (c d : String) (h : c ≠ d) :
    getCell (r.filter (fun p => decide (p.1 ≠ d))) c = getCell r c := by
  induction r with
  | nil => rfl
  | cons p rest ih =>
      rw [List.filter_cons]
      by_cases hp : p.1 = d
      · have hkeep : (decide (p.1 ≠ d)) = false := by simp [hp]
        have hpc : ¬ p.1 = c := by rw [hp]; exact fun hh => h hh.symm
        rw [hkeep]
        simp only [Bool.false_eq_true, if_false]
        rw [ih, getCell_cons, if_neg hpc]
      · have hkeep : (decide (p.1 ≠ d)) = true := by simp [hp]
        rw [hkeep]
        simp only [if_true]
        rw [getCell_cons, getCell_cons]
        by_cases hpc : p.1 = c
        · rw [if_pos hpc, if_pos hpc]
        · rw [if_neg hpc, if_neg hpc]
          exact ih

theorem filter_names (r : Row) (d : String) :
    (r.filter (fun p => decide (p.1 ≠ d))).map Prod.fst
      = (r.map Prod.fst).filter (fun c => decide (c ≠ d)) := by
  induction r with
  | nil => rfl
  | cons p rest ih =>
      rw [List.filter_cons, List.map_cons, List.filter_cons]
      by_cases hp : p.1 = d
      · have hkeep : (decide (p.1 ≠ d)) = false := by simp [hp]
        rw [hkeep]
        simp only [Bool.false_eq_true, if_false]
        exact ih
      · have hkeep : (decide (p.1 ≠ d)) = true := by simp [hp]
        rw [hkeep]
        simp only [if_true, List.map_cons]
        rw [ih]

-- Lemmas: folded cell writes ------------------------------------------------

theorem fold_setCell_names (ps : List (String × Int)) (g : String × Int → CellVal) (r : Row) :
    ((ps.foldl (fun r2 pm => setCell r2 pm.1 (g pm)) r).map Prod.fst) = r.map Prod.fst := by
  induction ps generalizing r with
  | nil => rfl
  | cons q rest ih =>
      rw [List.foldl_cons, ih, setCell_names]

theorem fold_setCell_notin (ps : List (String × Int)) (g : String × Int → CellVal)
    (r : Row) (c : String) (h : c ∉ ps.map Prod.fst) :
    getCell (ps.foldl (fun r2 pm => setCell r2 pm.1 (g pm)) r) c = getCell r c := by
  induction ps generalizing r with
  | nil => rfl
  | cons q rest ih =>
      have hq : c ≠ q.1 := by
        intro hh
        exact h (by simp [hh])
      have h2 : c ∉ rest.map Prod.fst := by
        intro hm
        exact h (by simp [hm])
      rw [List.foldl_cons, ih _ h2, getCell_setCell_ne _ _ _ _ hq]

theorem fold_setCell_mem (ps : List (String × Int)) (g : String × Int → CellVal)
    (r : Row) (pm : String × Int)
    (hnd : (ps.map Prod.fst).Nodup) (hmem : pm ∈ ps) (hin : pm.1 ∈ r.map Prod.fst) :
    getCell (ps.foldl (fun r2 pm2 => setCell r2 pm2.1 (g pm2)) r) pm.1 = g pm := by
  induction ps generalizing r with
  | nil => simp at hmem
  | cons q rest ih =>
      rw [List.foldl_cons]
      rw [List.map_cons, List.nodup_cons] at hnd
      rcases List.mem_cons.mp hmem with heq | hrest
      · subst heq
        have hnotin : pm.1 ∉ rest.map Prod.fst := hnd.1
        rw [fold_setCell_notin rest g _ pm.1 hnotin]
        exact getCell_setCell_eq r pm.1 (g pm) hin
      · have hin2 : pm.1 ∈ (setCell r q.1 (g q)).map Prod.fst := by
          rw [setCell_names]
          exact hin
        exact ih (setCell r q.1 (g q)) hnd.2 hrest hin2

theorem cellKey_keyCell (o : Option Nat) : cellKey (keyCell o) = o := by
  cases o with
  | none => rfl
  | some k =>
      simp [keyCell, cellKey, Int.natCast_nonneg k, Int.toNat_natCast]

-- Lemmas: markRow -----------------------------------------------------------

theorem markRow_key_none (att : List AttRecord) (sessionCol : String) (row : Row)
    (h : cellKey (getCell row keyColName) = Option.none) :
    markRow att sessionCol row = row := by
  simp only [markRow, h]

theorem markRow_unmatched (att : List AttRecord) (sessionCol : String) (row : Row) (k : Nat)
    (hk : cellKey (getCell row keyColName) = Option.some k)
    (hm : attendance_map att sessionCol k = Option.none) :
    markRow att sessionCol row = row := by
  simp only [markRow, hk, hm]

theorem markRow_names (att : List AttRecord) (sessionCol : String) (row : Row) :
    (markRow att sessionCol row).map Prod.fst = row.map Prod.fst := by
  cases hk : cellKey (getCell row keyColName) with
  | none => simp only [markRow, hk]
  | some k =>
      cases hm : attendance_map att sessionCol k with
      | none => simp only [markRow, hk, hm]
      | some v =>
          simp only [markRow, hk, hm]
          rw [setCell_names]
          unfold markedRow1
          rw [fold_setCell_names]

theorem markedRow1_param (present : Bool) (row : Row) (pm : String × Int)
    (hmem : pm ∈ PARAM_MARKS) (hin : pm.1 ∈ row.map Prod.fst) :
    getCell (markedRow1 present row) pm.1 = CellVal.num (if present then pm.2 else 0) := by
  unfold markedRow1
  exact fold_setCell_mem PARAM_MARKS
    (fun pm2 => CellVal.num (if present then pm2.2 else 0)) row pm (by decide) hmem hin

theorem rowTotal_markedRow1 (present : Bool) (row : Row)
    (hps : ∀ pm ∈ PARAM_MARKS, pm.1 ∈ row.map Prod.fst) :
    rowTotal (markedRow1 present row) = if present then 10 else 0 := by
  have h1 := markedRow1_param present row (("Timely completion, punctuality"), 2)
    (by decide) (hps _ (by decide))
  have h2 := markedRow1_param present row (("Performance, involvement, efficiency"), 4)
    (by decide) (hps _ (by decide))
  have h3 := markedRow1_param present row (("Oral Presentation"), 3)
    (by decide) (hps _ (by decide))
  have h4 := markedRow1_param present row (("Documentation, neatness"), 1)
    (by decide) (hps _ (by decide))
  unfold rowTotal
  simp only [PARAM_MARKS, List.foldl_cons, List.foldl_nil] at *
  rw [h1, h2, h3, h4]
  cases present with
  | true => simp [cellNum]
  | false => simp [cellNum]

theorem markRow_matched (att : List AttRecord) (sessionCol : String) (row : Row)
    (k : Nat) (v : CellVal)
    (hk : cellKey (getCell row keyColName) = Option.some k)
    (hm : attendance_map att sessionCol k = Option.some v)
    (hps : ∀ pm ∈ PARAM_MARKS, pm.1 ∈ row.map Prod.fst)
    (htot : TOTAL_COL_NAME ∈ row.map Prod.fst) :
    (∀ pm ∈ PARAM_MARKS, getCell (markRow att sessionCol row) pm.1
        = CellVal.num (if normalize_presence v then pm.2 else 0))
    ∧ getCell (markRow att sessionCol row) TOTAL_COL_NAME
        = CellVal.num (if normalize_presence v then 10 else 0)
    ∧ (∀ c, c ∉ PARAM_MARKS.map Prod.fst → c ≠ TOTAL_COL_NAME →
        getCell (markRow att sessionCol row) c = getCell row c) := by
  have hmark : markRow att sessionCol row
      = setCell (markedRow1 (normalize_presence v) row) TOTAL_COL_NAME
          (CellVal.num (rowTotal (markedRow1 (normalize_presence v) row))) := by
    simp only [markRow, hk, hm]
  refine ⟨?_, ?_, ?_⟩
  · intro pm hmem
    rw [hmark]
    have hne : pm.1 ≠ TOTAL_COL_NAME := by
      simp only [PARAM_MARKS, List.mem_cons, List.not_mem_nil, or_false] at hmem
      rcases hmem with rfl | rfl | rfl | rfl <;> decide
    rw [getCell_setCell_ne _ _ _ _ hne]
    exact markedRow1_param (normalize_presence v) row pm hmem (hps pm hmem)
  · rw [hmark]
    have hinT : TOTAL_COL_NAME ∈ (markedRow1 (normalize_presence v) row).map Prod.fst := by
      unfold markedRow1
      rw [fold_setCell_names]
      exact htot
    rw [getCell_setCell_eq _ _ _ hinT]
    rw [rowTotal_markedRow1 (normalize_presence v) row hps]
  · intro c hcp hct
    rw [hmark]
    rw [getCell_setCell_ne _ _ _ _ hct]
    unfold markedRow1
    exact fold_setCell_notin PARAM_MARKS _ row c hcp

-- Lemmas: table stages -------------------------------------------------------

theorem getCell_eq_none (r : Row) (c : String) (h : c ∉ r.map Prod.fst) :
    getCell r c = CellVal.none := by
  have hf : r.find? (fun p => decide (p.1 = c)) = Option.none := by
    rw [List.find?_eq_none]
    intro p hp
    simp only [decide_eq_true_eq]
    intro hpc
    exact h (hpc ▸ List.mem_map_of_mem Prod.fst hp)
  unfold getCell
  rw [hf]

theorem ensure_fold_spec (ns : List String) (t : Table) :
    ∃ ext : List String,
      (ns.foldl ensureCol t).cols = t.cols ++ ext
      ∧ (∀ c ∈ ext, c ∈ ns ∧ c ∉ t.cols)
      ∧ (∀ c ∈ ns, c ∈ t.cols ++ ext)
      ∧ (ns.foldl ensureCol t).rows
          = t.rows.map (fun r => r ++ ext.map (fun c => (c, CellVal.num 0)))
      ∧ ext.Nodup := by
  induction ns generalizing t with
  | nil =>
      refine ⟨[], by simp, by simp, by simp, by simp, List.nodup_nil⟩
  | cons n rest ih =>
      rw [List.foldl_cons]
      by_cases hn : n ∈ t.cols
      · have he : ensureCol t n = t := by
          unfold ensureCol
          rw [if_pos hn]
        rw [he]
        obtain ⟨ext, h1, h2, h3, h4, h5⟩ := ih t
        refine ⟨ext, h1, ?_, ?_, h4, h5⟩
        · intro c hc
          obtain ⟨hcr, hct⟩ := h2 c hc
          exact ⟨List.mem_cons_of_mem n hcr, hct⟩
        · intro c hc
          rcases List.mem_cons.mp hc with rfl | hcr
          · exact List.mem_append_left ext hn
          · exact h3 c hcr
      · have he : ensureCol t n
            = { cols := t.cols ++ [n],
                rows := t.rows.map (fun r => r ++ [(n, CellVal.num 0)]) } := by
          unfold ensureCol
          rw [if_neg hn]
        rw [he]
        obtain ⟨ext, h1, h2, h3, h4, h5⟩ :=
          ih { cols := t.cols ++ [n], rows := t.rows.map (fun r => r ++ [(n, CellVal.num 0)]) }
        refine ⟨n :: ext, ?_, ?_, ?_, ?_, ?_⟩
        · rw [h1]
          simp
        · intro c hc
          rcases List.mem_cons.mp hc with rfl | hce
          · exact ⟨List.mem_cons_self c rest, hn⟩
          · obtain ⟨hcr, hct⟩ := h2 c hce
            constructor
            · exact List.mem_cons_of_mem n hcr
            · intro hcin
              exact hct (List.mem_append_left [n] hcin)
        · intro c hc
          rcases List.mem_cons.mp hc with rfl | hcr
          · simp
          · have := h3 c hcr
            simp only [List.append_assoc, List.singleton_append] at this
            simpa using this
        · rw [h4]
          simp only [List.map_map]
          apply List.map_congr_left
          intro r hr
          simp
        · rw [List.nodup_cons]
          constructor
          · intro hne
            exact (h2 n hne).2 (List.mem_append_right t.cols (List.mem_singleton.mpr rfl))
          · exact h5

theorem ensureAll_eq_fold (t : Table) :
    ensureAll t = ((PARAM_MARKS.map Prod.fst) ++ [TOTAL_COL_NAME]).foldl ensureCol t := by
  unfold ensureAll
  rw [List.foldl_append, List.foldl_map]
  rfl

/-- The successful table transformation of `process_experiment`, staged. -/
def stagedTable (t : Table) (att : List AttRecord) (s rc : String) : Table :=
  dropColumn (markAll (ensureAll (addKeyCol t rc)) att s) keyColName

theorem getD_map_row (f : Row → Row) (l : List Row) (i : Nat) (hi : i < l.length) :
    (l.map f).getD i [] = f (l.getD i []) := by
  rw [List.getD, List.getD, List.get?_eq_getElem?, List.get?_eq_getElem?, List.getElem?_map]
  rw [List.getElem?_eq_getElem hi]
  rfl

theorem getD_mem_row (l : List Row) (i : Nat) (hi : i < l.length) :
    l.getD i [] ∈ l := by
  rw [List.getD, List.get?_eq_getElem?, List.getElem?_eq_getElem hi]
  exact List.getElem_mem hi

theorem process_ok_elim (t : Table) (att : List AttRecord) (s : String) (t2 : Table)
    (h : process_experiment t att s = Except.ok t2) :
    ∃ rc, find_roll_column t.cols = Option.some rc ∧ s ∈ attColumns ∧ s ≠ keyColName
      ∧ t2 = stagedTable t att s rc := by
  unfold process_experiment at h
  cases hrc : find_roll_column t.cols with
  | none =>
      rw [hrc] at h
      cases h
  | some rc =>
      simp only [hrc] at h
      by_cases hs : s ∈ attColumns
      · rw [if_pos hs] at h
        by_cases hsk : s = keyColName
        · rw [if_pos hsk] at h
          cases h
        · rw [if_neg hsk] at h
          cases h
          exact ⟨rc, rfl, hs, hsk, rfl⟩
      · rw [if_neg hs] at h
        cases h

theorem addKeyCol_cols (t : Table) (rc : String) :
    (addKeyCol t rc).cols
      = (if keyColName ∈ t.cols then t.cols else t.cols ++ [keyColName]) := by
  unfold addKeyCol setColumn
  by_cases h : keyColName ∈ t.cols
  · rw [if_pos h, if_pos h]
  · rw [if_neg h, if_neg h]

theorem addKeyCol_key_mem (t : Table) (rc : String) :
    keyColName ∈ (addKeyCol t rc).cols := by
  rw [addKeyCol_cols]
  by_cases h : keyColName ∈ t.cols
  · rw [if_pos h]
    exact h
  · rw [if_neg h]
    exact List.mem_append_right t.cols (List.mem_singleton.mpr rfl)

theorem addKeyCol_rows_length (t : Table) (rc : String) :
    (addKeyCol t rc).rows.length = t.rows.length := by
  unfold addKeyCol setColumn
  by_cases h : keyColName ∈ t.cols
  · rw [if_pos h]
    exact List.length_map t.rows _
  · rw [if_neg h]
    exact List.length_map t.rows _

theorem addKeyCol_row_facts (t : Table) (rc : String) (hwf : t.WF)
    (i : Nat) (hi : i < t.rows.length) :
    ((addKeyCol t rc).rows.getD i []).map Prod.fst = (addKeyCol t rc).cols
    ∧ getCell ((addKeyCol t rc).rows.getD i []) keyColName
        = keyCell (extract_roll_number (getCell (t.rows.getD i []) rc))
    ∧ (∀ c, c ≠ keyColName →
        getCell ((addKeyCol t rc).rows.getD i []) c = getCell (t.rows.getD i []) c) := by
  have hnames : (t.rows.getD i []).map Prod.fst = t.cols :=
    hwf.1 (t.rows.getD i []) (getD_mem_row t.rows i hi)
  unfold addKeyCol setColumn
  by_cases h : keyColName ∈ t.cols
  · rw [if_pos h]
    simp only
    rw [getD_map_row _ t.rows i hi]
    refine ⟨?_, ?_, ?_⟩
    · rw [setCell_names, hnames]
    · apply getCell_setCell_eq
      rw [hnames]
      exact h
    · intro c hc
      exact getCell_setCell_ne _ _ _ _ hc
  · rw [if_neg h]
    simp only
    rw [getD_map_row _ t.rows i hi]
    have hnotin : keyColName ∉ (t.rows.getD i []).map Prod.fst := by
      rw [hnames]
      exact h
    refine ⟨?_, ?_, ?_⟩
    · rw [List.map_append, hnames]
      rfl
    · rw [getCell_append_right _ _ _ hnotin, getCell_cons]
      rw [if_pos rfl]
    · intro c hc
      by_cases hcin : c ∈ (t.rows.getD i []).map Prod.fst
      · exact getCell_append_left _ _ _ hcin
      · rw [getCell_append_right _ _ _ hcin, getCell_cons]
        rw [if_neg (fun hh => hc hh.symm)]
        rw [getCell_eq_none _ _ hcin]
        rfl

theorem addKeyCol_WF (t : Table) (rc : String) (hwf : t.WF) : (addKeyCol t rc).WF := by
  constructor
  · intro r hr
    unfold addKeyCol setColumn at hr ⊢
    by_cases h : keyColName ∈ t.cols
    · rw [if_pos h] at hr ⊢
      simp only at hr ⊢
      obtain ⟨r0, hr0, rfl⟩ := List.mem_map.mp hr
      rw [setCell_names]
      exact hwf.1 r0 hr0
    · rw [if_neg h] at hr ⊢
      simp only at hr ⊢
      obtain ⟨r0, hr0, rfl⟩ := List.mem_map.mp hr
      rw [List.map_append, hwf.1 r0 hr0]
      rfl
  · rw [addKeyCol_cols]
    by_cases h : keyColName ∈ t.cols
    · rw [if_pos h]
      exact hwf.2
    · rw [if_neg h]
      rw [List.nodup_append]
      refine ⟨hwf.2, List.nodup_singleton keyColName, ?_⟩
      intro a ha hb
      rw [List.mem_singleton] at hb
      subst hb
      exact h ha

theorem extCells_names (ext : List String) :
    (ext.map (fun c => (c, CellVal.num 0))).map Prod.fst = ext := by
  induction ext with
  | nil => rfl
  | cons c rest ih =>
      simp only [List.map_cons]
      rw [ih]

theorem ensureAll_spec (t : Table) :
    ∃ ext : List String,
      (ensureAll t).cols = t.cols ++ ext
      ∧ (∀ c ∈ ext, (c ∈ PARAM_MARKS.map Prod.fst ∨ c = TOTAL_COL_NAME) ∧ c ∉ t.cols)
      ∧ (∀ pm ∈ PARAM_MARKS, pm.1 ∈ (ensureAll t).cols)
      ∧ TOTAL_COL_NAME ∈ (ensureAll t).cols
      ∧ (ensureAll t).rows = t.rows.map (fun r => r ++ ext.map (fun c => (c, CellVal.num 0)))
      ∧ ext.Nodup := by
  rw [ensureAll_eq_fold]
  obtain ⟨ext, h1, h2, h3, h4, h5⟩ :=
    ensure_fold_spec ((PARAM_MARKS.map Prod.fst) ++ [TOTAL_COL_NAME]) t
  refine ⟨ext, h1, ?_, ?_, ?_, h4, h5⟩
  · intro c hc
    obtain ⟨hcn, hct⟩ := h2 c hc
    refine ⟨?_, hct⟩
    rcases List.mem_append.mp hcn with hl | hr
    · exact Or.inl hl
    · exact Or.inr (List.mem_singleton.mp hr)
  · intro pm hpm
    rw [h1]
    exact h3 pm.1 (List.mem_append_left _ (List.mem_map_of_mem Prod.fst hpm))
  · rw [h1]
    exact h3 TOTAL_COL_NAME (List.mem_append_right _ (List.mem_singleton.mpr rfl))

theorem ensureAll_WF (t : Table) (hwf : t.WF) : (ensureAll t).WF := by
  obtain ⟨ext, h1, h2, _, _, h5, h6⟩ := ensureAll_spec t
  constructor
  · intro r hr
    rw [h5] at hr
    obtain ⟨r0, hr0, rfl⟩ := List.mem_map.mp hr
    rw [List.map_append, extCells_names, hwf.1 r0 hr0, h1]
  · rw [h1, List.nodup_append]
    refine ⟨hwf.2, h6, ?_⟩
    intro a ha hb
    exact (h2 a hb).2 ha

theorem ensureAll_rows_length (t : Table) :
    (ensureAll t).rows.length = t.rows.length := by
  obtain ⟨ext, _, _, _, _, h5, _⟩ := ensureAll_spec t
  rw [h5]
  exact List.length_map t.rows _

/-- Combined facts about one row after the key-column write and the
column-creation stage. -/
theorem rowB_facts (t : Table) (rc : String) (hwf : t.WF)
    (i : Nat) (hi : i < t.rows.length) :
    ((ensureAll (addKeyCol t rc)).rows.getD i []).map Prod.fst
        = (ensureAll (addKeyCol t rc)).cols
    ∧ getCell ((ensureAll (addKeyCol t rc)).rows.getD i []) keyColName
        = keyCell (extract_roll_number (getCell (t.rows.getD i []) rc))
    ∧ (∀ c, c ≠ keyColName → c ∈ t.cols →
        getCell ((ensureAll (addKeyCol t rc)).rows.getD i []) c
          = getCell (t.rows.getD i []) c)
    ∧ (∀ pm ∈ PARAM_MARKS,
        pm.1 ∈ ((ensureAll (addKeyCol t rc)).rows.getD i []).map Prod.fst)
    ∧ TOTAL_COL_NAME ∈ ((ensureAll (addKeyCol t rc)).rows.getD i []).map Prod.fst := by
  have hAwf : (addKeyCol t rc).WF := addKeyCol_WF t rc hwf
  have hAlen : i < (addKeyCol t rc).rows.length := by
    rw [addKeyCol_rows_length]
    exact hi
  obtain ⟨hAnames, hAkey, hAother⟩ := addKeyCol_row_facts t rc hwf i hi
  obtain ⟨ext, h1, h2, h3, h4, h5, h6⟩ := ensureAll_spec (addKeyCol t rc)
  have hrowB : (ensureAll (addKeyCol t rc)).rows.getD i []
      = (addKeyCol t rc).rows.getD i [] ++ ext.map (fun c => (c, CellVal.num 0)) := by
    rw [h5]
    exact getD_map_row _ _ i hAlen
  have hBnames : ((ensureAll (addKeyCol t rc)).rows.getD i []).map Prod.fst
      = (ensureAll (addKeyCol t rc)).cols := by
    rw [hrowB, List.map_append, extCells_names, hAnames, h1]
  refine ⟨hBnames, ?_, ?_, ?_, ?_⟩
  · rw [hrowB]
    rw [getCell_append_left]
    · exact hAkey
    · rw [hAnames]
      exact addKeyCol_key_mem t rc
  · intro c hck hcin
    rw [hrowB]
    rw [getCell_append_left]
    · exact hAother c hck
    · rw [hAnames, addKeyCol_cols]
      by_cases h : keyColName ∈ t.cols
      · rw [if_pos h]
        exact hcin
      · rw [if_neg h]
        exact List.mem_append_left _ hcin
  · intro pm hpm
    rw [hBnames]
    exact h3 pm hpm
  · rw [hBnames]
    exact h4

theorem staged_cols (t : Table) (att : List AttRecord) (s rc : String) :
    (stagedTable t att s rc).cols
      = (ensureAll (addKeyCol t rc)).cols.filter (fun c => decide (c ≠ keyColName)) := by
  unfold stagedTable dropColumn markAll
  rfl

theorem staged_key_notin (t : Table) (att : List AttRecord) (s rc : String) :
    keyColName ∉ (stagedTable t att s rc).cols := by
  rw [staged_cols]
  intro h
  have := (List.mem_filter.mp h).2
  simp at this

theorem staged_rows_length (t : Table) (att : List AttRecord) (s rc : String) :
    (stagedTable t att s rc).rows.length = t.rows.length := by
  unfold stagedTable dropColumn markAll
  simp only
  rw [List.length_map, List.length_map, ensureAll_rows_length, addKeyCol_rows_length]

theorem staged_row_getD (t : Table) (att : List AttRecord) (s rc : String)
    (i : Nat) (hi : i < t.rows.length) :
    (stagedTable t att s rc).rows.getD i []
      = (markRow att s ((ensureAll (addKeyCol t rc)).rows.getD i [])).filter
          (fun p => decide (p.1 ≠ keyColName)) := by
  have hlenB : i < (ensureAll (addKeyCol t rc)).rows.length := by
    rw [ensureAll_rows_length, addKeyCol_rows_length]
    exact hi
  have hlenC : i < ((ensureAll (addKeyCol t rc)).rows.map (markRow att s)).length := by
    rw [List.length_map]
    exact hlenB
  unfold stagedTable dropColumn markAll
  simp only
  rw [getD_map_row _ _ i hlenC, getD_map_row _ _ i hlenB]

theorem normalize_presence_boolCell (b : Bool) : normalize_presence (boolCell b) = b := by
  cases b with
  | true => rfl
  | false => rfl

theorem staged_getCell_matched (t : Table) (att : List AttRecord) (s rc : String)
    (hwf : t.WF) (i : Nat) (hi : i < t.rows.length) (k : Nat) (v : CellVal)
    (hkey : extract_roll_number (getCell (t.rows.getD i []) rc) = Option.some k)
    (hmap : attendance_map att s k = Option.some v) :
    (∀ pm ∈ PARAM_MARKS, getCell ((stagedTable t att s rc).rows.getD i []) pm.1
        = CellVal.num (if normalize_presence v then pm.2 else 0))
    ∧ getCell ((stagedTable t att s rc).rows.getD i []) TOTAL_COL_NAME
        = CellVal.num (if normalize_presence v then 10 else 0)
    ∧ (∀ c, c ∉ PARAM_MARKS.map Prod.fst → c ≠ TOTAL_COL_NAME → c ≠ keyColName →
        c ∈ t.cols →
        getCell ((stagedTable t att s rc).rows.getD i []) c
          = getCell (t.rows.getD i []) c) := by
  obtain ⟨hBnames, hBkey, hBother, hBps, hBtot⟩ := rowB_facts t rc hwf i hi
  have hk : cellKey (getCell ((ensureAll (addKeyCol t rc)).rows.getD i []) keyColName)
      = Option.some k := by
    rw [hBkey, hkey, cellKey_keyCell]
  obtain ⟨hMp, hMt, hMo⟩ := markRow_matched att s _ k v hk hmap hBps hBtot
  have hrow := staged_row_getD t att s rc i hi
  refine ⟨?_, ?_, ?_⟩
  · intro pm hpm
    rw [hrow]
    have hne : pm.1 ≠ keyColName := by
      simp only [PARAM_MARKS, List.mem_cons, List.not_mem_nil, or_false] at hpm
      rcases hpm with rfl | rfl | rfl | rfl <;> decide
    rw [getCell_filter_ne _ _ _ hne]
    exact hMp pm hpm
  · rw [hrow]
    rw [getCell_filter_ne _ _ _ (by decide : TOTAL_COL_NAME ≠ keyColName)]
    exact hMt
  · intro c hcp hct hck hcin
    rw [hrow]
    rw [getCell_filter_ne _ _ _ hck]
    rw [hMo c hcp hct]
    exact hBother c hck hcin

theorem staged_getCell_skip (t : Table) (att : List AttRecord) (s rc : String)
    (hwf : t.WF) (i : Nat) (hi : i < t.rows.length)
    (hskip : extract_roll_number (getCell (t.rows.getD i []) rc) = Option.none
      ∨ ∃ k, extract_roll_number (getCell (t.rows.getD i []) rc) = Option.some k
          ∧ attendance_map att s k = Option.none) :
    ∀ c, c ≠ keyColName → c ∈ t.cols →
      getCell ((stagedTable t att s rc).rows.getD i []) c
        = getCell (t.rows.getD i []) c := by
  obtain ⟨hBnames, hBkey, hBother, hBps, hBtot⟩ := rowB_facts t rc hwf i hi
  have hmark : markRow att s ((ensureAll (addKeyCol t rc)).rows.getD i [])
      = (ensureAll (addKeyCol t rc)).rows.getD i [] := by
    rcases hskip with hnone | ⟨k, hk, hm⟩
    · apply markRow_key_none
      rw [hBkey, hnone, cellKey_keyCell]
    · apply markRow_unmatched att s _ k
      · rw [hBkey, hk, cellKey_keyCell]
      · exact hm
  intro c hck hcin
  rw [staged_row_getD t att s rc i hi, hmark]
  rw [getCell_filter_ne _ _ _ hck]
  exact hBother c hck hcin

instance {α β : Type} [DecidableEq α] [DecidableEq β] : DecidableEq (Except α β) :=
  fun x y =>
    match x, y with
    | Except.error a, Except.error b =>
        if h : a = b then Decidable.isTrue (by rw [h])
        else Decidable.isFalse (fun hh => h (Except.error.inj hh))
    | Except.ok a, Except.ok b =>
        if h : a = b then Decidable.isTrue (by rw [h])
        else Decidable.isFalse (fun hh => h (Except.ok.inj hh))
    | Except.error a, Except.ok b => Decidable.isFalse (fun hh => Except.noConfusion hh)
    | Except.ok a, Except.error b => Decidable.isFalse (fun hh => Except.noConfusion hh)

-- Claim theorems: the row join ----------------------------------------------

/-- C1.  For a score-table row whose roll cell yields a key present in the
attendance lookup for the target session: with presence true every rubric
column gets its fixed point value (2, 4, 3, 1 per `PARAM_MARKS`) and the
total gets their sum 10; with presence false every rubric column and the
total get 0. -/
theorem c1_present_marks (t : Table) (att : List AttRecord) (s : String) (t2 : Table)
    (hwf : t.WF) (hrun : process_experiment t att s = Except.ok t2)
    (i : Nat) (hi : i < t.rows.length) (rc : String) (k : Nat) (b : Bool)
    (hrc : find_roll_column t.cols = Option.some rc)
    (hkey : extract_roll_number (getCell (t.rows.getD i []) rc) = Option.some k)
    (hmap : attendance_map att s k = Option.some (boolCell b)) :
    (∀ pm ∈ PARAM_MARKS,
        getCell (t2.rows.getD i []) pm.1 = CellVal.num (if b then pm.2 else 0))
    ∧ getCell (t2.rows.getD i []) TOTAL_COL_NAME
        = CellVal.num (if b then 10 else 0) := by
  obtain ⟨rc2, hrc2, hs, hsk, ht2⟩ := process_ok_elim t att s t2 hrun
  rw [hrc] at hrc2
  injection hrc2 with he
  subst he
  subst ht2
  obtain ⟨hp, ht, _⟩ :=
    staged_getCell_matched t att s rc hwf i hi k (boolCell b) hkey hmap
  rw [normalize_presence_boolCell] at hp ht
  exact ⟨hp, ht⟩

def watt : List AttRecord :=
  [{ rollRaw := ("1")
     name := ("a")
     surname := ("b")
     sessions := [true, false, false, false] }]

def wtab : Table :=
  { cols := [("Roll No")], rows := [[(("Roll No" : String), CellVal.str ("CS-001"))]] }

def wout : Table :=
  { cols := [("Roll No"), ("Timely completion, punctuality"),
      ("Performance, involvement, efficiency"), ("Oral Presentation"),
      ("Documentation, neatness"), ("Total")],
    rows := [[(("Roll No" : String), CellVal.str ("CS-001")),
      (("Timely completion, punctuality" : String), CellVal.num 2),
      (("Performance, involvement, efficiency" : String), CellVal.num 4),
      (("Oral Presentation" : String), CellVal.num 3),
      (("Documentation, neatness" : String), CellVal.num 1),
      (("Total" : String), CellVal.num 10)]] }

theorem c1_witness :
    (wtab.WF ∧ process_experiment wtab watt (sessionLabel 1) = Except.ok wout
      ∧ 0 < wtab.rows.length
      ∧ find_roll_column wtab.cols = Option.some ("Roll No")
      ∧ extract_roll_number (getCell (wtab.rows.getD 0 []) ("Roll No")) = Option.some 1
      ∧ attendance_map watt (sessionLabel 1) 1 = Option.some (boolCell true))
    ∧ ((∀ pm ∈ PARAM_MARKS,
          getCell (wout.rows.getD 0 []) pm.1 = CellVal.num (if true then pm.2 else 0))
        ∧ getCell (wout.rows.getD 0 []) TOTAL_COL_NAME
            = CellVal.num (if true then 10 else 0)) :=
  ⟨⟨by decide, by decide, by decide, by decide, by decide, by decide⟩,
   c1_present_marks wtab watt (sessionLabel 1) wout (by decide) (by decide) 0 (by decide)
     ("Roll No") 1 true (by decide) (by decide) (by decide)⟩

/-- C3.  A row whose roll cell yields no key, or whose key is absent from
the attendance lookup for the target session, keeps its rubric and total
cells exactly as in the input (for those of these columns the input table
had). -/
theorem c3_skip_rows_unchanged (t : Table) (att : List AttRecord) (s : String) (t2 : Table)
    (hwf : t.WF) (hrun : process_experiment t att s = Except.ok t2)
    (i : Nat) (hi : i < t.rows.length) (rc : String)
    (hrc : find_roll_column t.cols = Option.some rc)
    (hskip : extract_roll_number (getCell (t.rows.getD i []) rc) = Option.none
      ∨ ∃ k, extract_roll_number (getCell (t.rows.getD i []) rc) = Option.some k
          ∧ attendance_map att s k = Option.none)
    (p : String)
    (hptype : p ∈ PARAM_MARKS.map Prod.fst ∨ p = TOTAL_COL_NAME)
    (hp : p ∈ t.cols) :
    getCell (t2.rows.getD i []) p = getCell (t.rows.getD i []) p := by
  obtain ⟨rc2, hrc2, hs, hsk, ht2⟩ := process_ok_elim t att s t2 hrun
  rw [hrc] at hrc2
  injection hrc2 with he
  subst he
  subst ht2
  have hpk : p ≠ keyColName := by
    rcases hptype with hpp | rfl
    · simp only [PARAM_MARKS, List.map_cons, List.map_nil, List.mem_cons,
        List.not_mem_nil, or_false] at hpp
      rcases hpp with rfl | rfl | rfl | rfl <;> decide
    · decide
  exact staged_getCell_skip t att s rc hwf i hi hskip p hpk hp

def wtab3 : Table :=
  { cols := [("Roll"), ("Total")],
    rows := [[(("Roll" : String), CellVal.str ("XYZ")),
      (("Total" : String), CellVal.num 7)]] }

def wout3 : Table :=
  { cols := [("Roll"), ("Total"), ("Timely completion, punctuality"),
      ("Performance, involvement, efficiency"), ("Oral Presentation"),
      ("Documentation, neatness")],
    rows := [[(("Roll" : String), CellVal.str ("XYZ")),
      (("Total" : String), CellVal.num 7),
      (("Timely completion, punctuality" : String), CellVal.num 0),
      (("Performance, involvement, efficiency" : String), CellVal.num 0),
      (("Oral Presentation" : String), CellVal.num 0),
      (("Documentation, neatness" : String), CellVal.num 0)]] }

theorem c3_witness :
    (wtab3.WF ∧ process_experiment wtab3 watt (sessionLabel 1) = Except.ok wout3
      ∧ 0 < wtab3.rows.length
      ∧ find_roll_column wtab3.cols = Option.some ("Roll")
      ∧ extract_roll_number (getCell (wtab3.rows.getD 0 []) ("Roll")) = Option.none
      ∧ TOTAL_COL_NAME ∈ wtab3.cols)
    ∧ getCell (wout3.rows.getD 0 []) TOTAL_COL_NAME
        = getCell (wtab3.rows.getD 0 []) TOTAL_COL_NAME :=
  ⟨⟨by decide, by decide, by decide, by decide, by decide, by decide⟩,
   c3_skip_rows_unchanged wtab3 watt (sessionLabel 1) wout3 (by decide) (by decide)
     0 (by decide) ("Roll") (by decide) (Or.inl (by decide)) TOTAL_COL_NAME
     (Or.inr rfl) (by decide)⟩

/-- C9.  When the input table already has a `__roll_num_key` column, the
transformation overwrites it with the computed keys and drops it: the column
label and all its cells are absent from the output. -/
theorem c9_helper_column_dropped (t : Table) (att : List AttRecord) (s : String)
    (t2 : Table) (hin : keyColName ∈ t.cols)
    (hrun : process_experiment t att s = Except.ok t2) :
    keyColName ∉ t2.cols ∧ ∀ r ∈ t2.rows, ∀ p ∈ r, p.1 ≠ keyColName := by
  obtain ⟨rc, hrc, hs, hsk, ht2⟩ := process_ok_elim t att s t2 hrun
  subst ht2
  refine ⟨staged_key_notin t att s rc, ?_⟩
  intro r hr p hp
  unfold stagedTable dropColumn at hr
  simp only at hr
  obtain ⟨r0, hr0, rfl⟩ := List.mem_map.mp hr
  have := (List.mem_filter.mp hp).2
  simpa using this

def wtab9 : Table :=
  { cols := [("__roll_num_key")],
    rows := [[(("__roll_num_key" : String), CellVal.str ("1"))]] }

def wout9 : Table :=
  { cols := [("Timely completion, punctuality"),
      ("Performance, involvement, efficiency"), ("Oral Presentation"),
      ("Documentation, neatness"), ("Total")],
    rows := [[(("Timely completion, punctuality" : String), CellVal.num 2),
      (("Performance, involvement, efficiency" : String), CellVal.num 4),
      (("Oral Presentation" : String), CellVal.num 3),
      (("Documentation, neatness" : String), CellVal.num 1),
      (("Total" : String), CellVal.num 10)]] }

theorem c9_witness :
    (keyColName ∈ wtab9.cols
      ∧ process_experiment wtab9 watt (sessionLabel 1) = Except.ok wout9)
    ∧ (keyColName ∉ wout9.cols ∧ ∀ r ∈ wout9.rows, ∀ p ∈ r, p.1 ≠ keyColName) :=
  ⟨⟨by decide, by decide⟩,
   c9_helper_column_dropped wtab9 watt (sessionLabel 1) wout9 (by decide) (by decide)⟩

-- Lemmas: second-application stability ---------------------------------------

theorem find?_filter_of_imp {α : Type} (p q : α → Bool) (l : List α)
    (h : ∀ x, p x = true → q x = true) :
    (l.filter q).find? p = l.find? p := by
  induction l with
  | nil => rfl
  | cons x rest ih =>
      rw [List.filter_cons]
      by_cases hq : q x = true
      · rw [hq]
        simp only [if_true]
        rw [List.find?_cons, List.find?_cons]
        cases hp : p x with
        | true => rfl
        | false => exact ih
      · have hqf : q x = false := by
          cases hqq : q x with
          | true => exact absurd hqq hq
          | false => rfl
        rw [hqf]
        simp only [Bool.false_eq_true, if_false]
        have hpf : p x = false := by
          cases hpp : p x with
          | true => exact absurd (h x hpp) hq
          | false => rfl
        rw [List.find?_cons, hpf]
        exact ih

theorem find?_filter_of_first {α : Type} (p q : α → Bool) (l : List α) (b : α)
    (hfind : l.find? p = Option.some b) (hqb : q b = true)
    (himp : ∀ x, q x = false → p x = true) :
    (l.filter q).find? p = Option.some b := by
  induction l with
  | nil => cases hfind
  | cons x rest ih =>
      rw [List.find?_cons] at hfind
      cases hp : p x with
      | true =>
          rw [hp] at hfind
          injection hfind with he
          subst he
          rw [List.filter_cons, hqb]
          simp only [if_true]
          rw [List.find?_cons, hp]
      | false =>
          rw [hp] at hfind
          have hq : q x = true := by
            cases hqq : q x with
            | true => rfl
            | false => exact absurd (himp x hqq) (by rw [hp]; intro hh; cases hh)
          rw [List.filter_cons, hq]
          simp only [if_true]
          rw [List.find?_cons, hp]
          exact ih hfind

theorem findSome?_congr {α β : Type} (f g : α → Option β) (l : List α)
    (h : ∀ a ∈ l, f a = g a) : l.findSome? f = l.findSome? g := by
  induction l with
  | nil => rfl
  | cons x rest ih =>
      rw [List.findSome?_cons, List.findSome?_cons, h x (List.mem_cons_self x rest)]
      cases g x with
      | some b => rfl
      | none => exact ih (fun a ha => h a (List.mem_cons_of_mem x ha))

theorem find?_eq_none_of_all {α : Type} (p : α → Bool) (l : List α)
    (h : ∀ x ∈ l, p x = false) : l.find? p = Option.none := by
  rw [List.find?_eq_none]
  intro x hx
  rw [h x hx]
  intro hh
  cases hh

/-- Whether a column name would ever be returned by `find_roll_column`:
it matches an alias modulo strip/lower, or contains the substring `roll`. -/
def rollish (c : String) : Bool :=
  (ROLL_ALIASES.any (fun a => stripLower c = stripLower a))
    || isSub (("roll").data) (stripLower c).data

theorem find_roll_spec (cols : List String) (rc : String)
    (h : find_roll_column cols = Option.some rc) :
    rc ∈ cols ∧ rollish rc = true := by
  unfold find_roll_column at h
  cases hfs : ROLL_ALIASES.findSome?
      (fun a => cols.find? (fun c => stripLower c = stripLower a)) with
  | some c =>
      rw [hfs] at h
      injection h with he
      subst he
      obtain ⟨a, ha, hfa⟩ := List.exists_of_findSome?_eq_some hfs
      refine ⟨List.mem_of_find?_eq_some hfa, ?_⟩
      have := List.find?_some hfa
      unfold rollish
      rw [Bool.or_eq_true]
      exact Or.inl (List.any_eq_true.mpr ⟨a, ha, this⟩)
  | none =>
      rw [hfs] at h
      refine ⟨List.mem_of_find?_eq_some h, ?_⟩
      have := List.find?_some h
      unfold rollish
      rw [Bool.or_eq_true]
      exact Or.inr (by simpa using this)

theorem find_roll_stable (cols : List String) (rc : String) (ext : List String)
    (h : find_roll_column cols = Option.some rc) (hrc : rc ≠ keyColName)
    (hext : ∀ c ∈ ext, rollish c = false) :
    find_roll_column (cols.filter (fun c => decide (c ≠ keyColName)) ++ ext)
      = Option.some rc := by
  have hkeyAlias : ∀ a ∈ ROLL_ALIASES, ¬ (stripLower keyColName = stripLower a) := by
    decide
  have halias : ∀ a ∈ ROLL_ALIASES,
      ((cols.filter (fun c => decide (c ≠ keyColName)) ++ ext)).find?
          (fun c => stripLower c = stripLower a)
        = cols.find? (fun c => stripLower c = stripLower a) := by
    intro a ha
    rw [List.find?_append]
    have hextnone : ext.find? (fun c => stripLower c = stripLower a) = Option.none := by
      apply find?_eq_none_of_all
      intro x hx
      have hr := hext x hx
      unfold rollish at hr
      rw [Bool.or_eq_false_iff] at hr
      have := hr.1
      rw [List.any_eq_false] at this
      have h2 := this a ha
      cases hd : decide (stripLower x = stripLower a) with
      | true => exact absurd hd h2
      | false => rfl
    rw [hextnone, Option.or_none]
    apply find?_filter_of_imp
    intro x hx
    rw [decide_eq_true_eq] at hx
    rw [decide_eq_true_eq]
    intro hxk
    subst hxk
    exact hkeyAlias a ha hx
  unfold find_roll_column at h ⊢
  rw [findSome?_congr _
    (fun a => cols.find? (fun c => stripLower c = stripLower a)) ROLL_ALIASES halias]
  cases hstage : ROLL_ALIASES.findSome?
      (fun a => cols.find? (fun c => stripLower c = stripLower a)) with
  | some c =>
      rw [hstage] at h
      exact h
  | none =>
      rw [hstage] at h
      rw [List.find?_append]
      have hextnone : ext.find?
          (fun c => isSub (("roll").data) (stripLower c).data) = Option.none := by
        apply find?_eq_none_of_all
        intro x hx
        have hr := hext x hx
        unfold rollish at hr
        rw [Bool.or_eq_false_iff] at hr
        exact hr.2
      rw [hextnone, Option.or_none]
      apply find?_filter_of_first _ _ _ _ h
      · rw [decide_eq_true_eq]
        exact hrc
      · intro x hx
        rw [decide_eq_false_iff_not] at hx
        rw [Classical.not_not] at hx
        subst hx
        decide

theorem ensure_fold_nop (ns : List String) (t : Table)
    (h : ∀ n ∈ ns, n ∈ t.cols) : ns.foldl ensureCol t = t := by
  induction ns with
  | nil => rfl
  | cons n rest ih =>
      rw [List.foldl_cons]
      have he : ensureCol t n = t := by
        unfold ensureCol
        rw [if_pos (h n (List.mem_cons_self n rest))]
      rw [he]
      exact ih (fun x hx => h x (List.mem_cons_of_mem n hx))

theorem ensureAll_nop (t : Table)
    (hp : ∀ pm ∈ PARAM_MARKS, pm.1 ∈ t.cols)
    (ht : TOTAL_COL_NAME ∈ t.cols) : ensureAll t = t := by
  rw [ensureAll_eq_fold]
  apply ensure_fold_nop
  intro n hn
  rcases List.mem_append.mp hn with hl | hr
  · obtain ⟨pm, hpm, rfl⟩ := List.mem_map.mp hl
    exact hp pm hpm
  · rw [List.mem_singleton.mp hr]
    exact ht

theorem cell_unique (r : Row) (hnd : (r.map Prod.fst).Nodup) (p : String × CellVal)
    (hp : p ∈ r) : getCell r p.1 = p.2 := by
  induction r with
  | nil => cases hp
  | cons q rest ih =>
      rw [List.map_cons, List.nodup_cons] at hnd
      rcases List.mem_cons.mp hp with rfl | hrest
      · rw [getCell_cons, if_pos rfl]
      · rw [getCell_cons]
        have hq : ¬ q.1 = p.1 := by
          intro he
          exact hnd.1 (he ▸ List.mem_map_of_mem Prod.fst hrest)
        rw [if_neg hq]
        exact ih hnd.2 hrest

theorem setCell_self (r : Row) (c : String) (v : CellVal)
    (hnd : (r.map Prod.fst).Nodup) (hv : getCell r c = v) : setCell r c v = r := by
  unfold setCell
  have : ∀ p ∈ r, (if p.1 = c then (p.1, v) else p) = p := by
    intro p hp
    by_cases hpc : p.1 = c
    · rw [if_pos hpc]
      have := cell_unique r hnd p hp
      rw [hpc, hv] at this
      rw [this]
    · rw [if_neg hpc]
  rw [List.map_congr_left this]
  exact List.map_id r

theorem fold_setCell_id (ps : List (String × Int)) (g : String × Int → CellVal) (r : Row)
    (hnd : (r.map Prod.fst).Nodup)
    (h : ∀ pm ∈ ps, getCell r pm.1 = g pm) :
    ps.foldl (fun r2 pm => setCell r2 pm.1 (g pm)) r = r := by
  induction ps with
  | nil => rfl
  | cons q rest ih =>
      rw [List.foldl_cons, setCell_self r q.1 (g q) hnd (h q (List.mem_cons_self q rest))]
      exact ih (fun pm hpm => h pm (List.mem_cons_of_mem q hpm))

theorem markAll_WF (t : Table) (att : List AttRecord) (s : String) (hwf : t.WF) :
    (markAll t att s).WF := by
  constructor
  · intro r hr
    unfold markAll at hr
    simp only at hr
    obtain ⟨r0, hr0, rfl⟩ := List.mem_map.mp hr
    rw [markRow_names]
    exact hwf.1 r0 hr0
  · exact hwf.2

theorem dropColumn_WF (t : Table) (c : String) (hwf : t.WF) : (dropColumn t c).WF := by
  constructor
  · intro r hr
    unfold dropColumn at hr ⊢
    simp only at hr ⊢
    obtain ⟨r0, hr0, rfl⟩ := List.mem_map.mp hr
    rw [filter_names, hwf.1 r0 hr0]
  · unfold dropColumn
    simp only
    exact List.Nodup.filter _ hwf.2

theorem staged_WF (t : Table) (att : List AttRecord) (s rc : String) (hwf : t.WF) :
    (stagedTable t att s rc).WF := by
  unfold stagedTable
  exact dropColumn_WF _ _ (markAll_WF _ att s (ensureAll_WF _ (addKeyCol_WF t rc hwf)))

theorem getD_eq_getElem_row (l : List Row) (i : Nat) (hi : i < l.length) :
    l.getD i [] = l[i] := by
  rw [List.getD, List.get?_eq_getElem?, List.getElem?_eq_getElem hi]
  rfl

theorem process_ok_intro (t : Table) (att : List AttRecord) (s rc : String)
    (h : find_roll_column t.cols = Option.some rc)
    (hs : s ∈ attColumns) (hsk : s ≠ keyColName) :
    process_experiment t att s = Except.ok (stagedTable t att s rc) := by
  unfold process_experiment
  simp only [h, if_pos hs, if_neg hsk]
  rfl

theorem rowTotal_of_values (r : Row) (pres : Bool)
    (h : ∀ pm ∈ PARAM_MARKS, getCell r pm.1 = CellVal.num (if pres then pm.2 else 0)) :
    rowTotal r = if pres then 10 else 0 := by
  have h1 := h (("Timely completion, punctuality"), 2) (by decide)
  have h2 := h (("Performance, involvement, efficiency"), 4) (by decide)
  have h3 := h (("Oral Presentation"), 3) (by decide)
  have h4 := h (("Documentation, neatness"), 1) (by decide)
  unfold rowTotal
  simp only [PARAM_MARKS, List.foldl_cons, List.foldl_nil] at *
  rw [h1, h2, h3, h4]
  cases pres with
  | true => simp [cellNum]
  | false => simp [cellNum]

theorem param_total_props (c : String)
    (h : c ∈ PARAM_MARKS.map Prod.fst ∨ c = TOTAL_COL_NAME) :
    c ≠ keyColName ∧ rollish c = false := by
  rcases h with hp | rfl
  · simp only [PARAM_MARKS, List.map_cons, List.map_nil, List.mem_cons,
      List.not_mem_nil, or_false] at hp
    rcases hp with rfl | rfl | rfl | rfl <;> exact ⟨by decide, by decide⟩
  · exact ⟨by decide, by decide⟩

/-- The row extension performed by the key-column write when the helper
column is absent. -/
def keyedRow (rc : String) (r : Row) : Row :=
  r ++ [(keyColName, keyCell (extract_roll_number (getCell r rc)))]

set_option maxHeartbeats 2000000 in
/-- C2 (amended).  The table transformation is idempotent for every
well-formed score table whose detected roll column is not the helper column
`__roll_num_key` itself: if the first application succeeds with output `t2`,
applying the transformation to `t2` succeeds and returns `t2` again. -/
theorem c2_amended_idempotent (t : Table) (att : List AttRecord) (s : String)
    (t2 : Table) (rc : String) (hwf : t.WF)
    (hrc : find_roll_column t.cols = Option.some rc) (hne : rc ≠ keyColName)
    (hrun : process_experiment t att s = Except.ok t2) :
    process_experiment t2 att s = Except.ok t2 := by
  obtain ⟨rc2, hrc2, hs, hsk, ht2⟩ := process_ok_elim t att s t2 hrun
  rw [hrc] at hrc2
  injection hrc2 with he
  subst he
  have hwf2 : t2.WF := ht2 ▸ staged_WF t att s rc hwf
  have hkeynot : keyColName ∉ t2.cols := ht2 ▸ staged_key_notin t att s rc
  have hlen2 : t2.rows.length = t.rows.length := by
    rw [ht2]
    exact staged_rows_length t att s rc
  obtain ⟨ext, hE1, hE2, hE3, hE4, hE5, hE6⟩ := ensureAll_spec (addKeyCol t rc)
  have hextprops : ∀ c ∈ ext, c ≠ keyColName ∧ rollish c = false := by
    intro c hc
    exact param_total_props c (hE2 c hc).1
  have hcols2 : t2.cols = t.cols.filter (fun c => decide (c ≠ keyColName)) ++ ext := by
    rw [ht2, staged_cols, hE1, List.filter_append]
    have hextf : ext.filter (fun c => decide (c ≠ keyColName)) = ext := by
      rw [List.filter_eq_self]
      intro c hc
      rw [decide_eq_true_eq]
      exact (hextprops c hc).1
    rw [hextf]
    congr 1
    rw [addKeyCol_cols]
    by_cases hk : keyColName ∈ t.cols
    · rw [if_pos hk]
    · rw [if_neg hk, List.filter_append]
      have hsing : ([keyColName]).filter (fun c => decide (c ≠ keyColName)) = [] := by
        decide
      rw [hsing, List.append_nil]
  have hfind2 : find_roll_column t2.cols = Option.some rc := by
    rw [hcols2]
    exact find_roll_stable t.cols rc ext hrc hne (fun c hc => (hextprops c hc).2)
  obtain ⟨hrcmem, hrcroll⟩ := find_roll_spec t.cols rc hrc
  have hrcnp : rc ∉ PARAM_MARKS.map Prod.fst := by
    intro hmem
    have hfalse := (param_total_props rc (Or.inl hmem)).2
    rw [hfalse] at hrcroll
    cases hrcroll
  have hrcnt : rc ≠ TOTAL_COL_NAME := by
    intro heq
    have hfalse := (param_total_props rc (Or.inr heq)).2
    rw [hfalse] at hrcroll
    cases hrcroll
  have hp2 : ∀ pm ∈ PARAM_MARKS, pm.1 ∈ t2.cols := by
    intro pm hpm
    rw [ht2, staged_cols]
    refine List.mem_filter.mpr ⟨hE3 pm hpm, ?_⟩
    rw [decide_eq_true_eq]
    exact (param_total_props pm.1 (Or.inl (List.mem_map_of_mem Prod.fst hpm))).1
  have ht2tot : TOTAL_COL_NAME ∈ t2.cols := by
    rw [ht2, staged_cols]
    refine List.mem_filter.mpr ⟨hE4, ?_⟩
    rw [decide_eq_true_eq]
    decide
  have hA : addKeyCol t2 rc
      = { cols := t2.cols ++ [keyColName], rows := t2.rows.map (keyedRow rc) } := by
    unfold addKeyCol setColumn
    rw [if_neg hkeynot]
    rfl
  have hrowfix : ∀ r0 ∈ t2.rows, markRow att s (keyedRow rc r0) = keyedRow rc r0 := by
    intro r0 hr0
    obtain ⟨i, hilt, hgi⟩ := List.mem_iff_getElem.mp hr0
    have hgetD : t2.rows.getD i [] = r0 := by
      rw [getD_eq_getElem_row t2.rows i hilt, hgi]
    have hit : i < t.rows.length := by
      rw [← hlen2]
      exact hilt
    have hr0names : r0.map Prod.fst = t2.cols := hwf2.1 r0 hr0
    have hkeynotr : keyColName ∉ r0.map Prod.fst := by
      rw [hr0names]
      exact hkeynot
    have hroll : getCell r0 rc = getCell (t.rows.getD i []) rc := by
      rw [← hgetD, ht2]
      cases hk : extract_roll_number (getCell (t.rows.getD i []) rc) with
      | none =>
          exact staged_getCell_skip t att s rc hwf i hit (Or.inl hk) rc hne hrcmem
      | some k =>
          cases hm : attendance_map att s k with
          | none =>
              exact staged_getCell_skip t att s rc hwf i hit
                (Or.inr ⟨k, hk, hm⟩) rc hne hrcmem
          | some v =>
              exact (staged_getCell_matched t att s rc hwf i hit k v hk hm).2.2
                rc hrcnp hrcnt hne hrcmem
    have hkeycell : getCell (keyedRow rc r0) keyColName
        = keyCell (extract_roll_number (getCell r0 rc)) := by
      unfold keyedRow
      rw [getCell_append_right _ _ _ hkeynotr, getCell_cons, if_pos rfl]
    cases hk : extract_roll_number (getCell (t.rows.getD i []) rc) with
    | none =>
        apply markRow_key_none
        rw [hkeycell, hroll, hk, cellKey_keyCell]
    | some k =>
        cases hm : attendance_map att s k with
        | none =>
            apply markRow_unmatched att s _ k
            · rw [hkeycell, hroll, hk, cellKey_keyCell]
            · exact hm
        | some v =>
            obtain ⟨hP, hT, _⟩ := staged_getCell_matched t att s rc hwf i hit k v hk hm
            have hPr : ∀ pm ∈ PARAM_MARKS, getCell r0 pm.1
                = CellVal.num (if normalize_presence v then pm.2 else 0) := by
              intro pm hpm
              have hh := hP pm hpm
              rw [← ht2, hgetD] at hh
              exact hh
            have hTr : getCell r0 TOTAL_COL_NAME
                = CellVal.num (if normalize_presence v then 10 else 0) := by
              have hh := hT
              rw [← ht2, hgetD] at hh
              exact hh
            have hr1names : (keyedRow rc r0).map Prod.fst = t2.cols ++ [keyColName] := by
              unfold keyedRow
              rw [List.map_append, hr0names]
              rfl
            have hr1nd : ((keyedRow rc r0).map Prod.fst).Nodup := by
              rw [hr1names, List.nodup_append]
              refine ⟨hwf2.2, List.nodup_singleton keyColName, ?_⟩
              intro a ha hb
              rw [List.mem_singleton] at hb
              subst hb
              exact hkeynot ha
            have hP1 : ∀ pm ∈ PARAM_MARKS, getCell (keyedRow rc r0) pm.1
                = CellVal.num (if normalize_presence v then pm.2 else 0) := by
              intro pm hpm
              unfold keyedRow
              rw [getCell_append_left]
              · exact hPr pm hpm
              · rw [hr0names]
                exact hp2 pm hpm
            have hT1 : getCell (keyedRow rc r0) TOTAL_COL_NAME
                = CellVal.num (if normalize_presence v then 10 else 0) := by
              unfold keyedRow
              rw [getCell_append_left]
              · exact hTr
              · rw [hr0names]
                exact ht2tot
            have hkc : cellKey (getCell (keyedRow rc r0) keyColName) = Option.some k := by
              rw [hkeycell, hroll, hk, cellKey_keyCell]
            simp only [markRow, hkc, hm]
            have hm1 : markedRow1 (normalize_presence v) (keyedRow rc r0) = keyedRow rc r0 := by
              unfold markedRow1
              exact fold_setCell_id PARAM_MARKS _ _ hr1nd hP1
            rw [hm1, rowTotal_of_values _ (normalize_presence v) hP1]
            exact setCell_self _ _ _ hr1nd hT1
  rw [process_ok_intro t2 att s rc hfind2 hs hsk]
  congr 1
  unfold stagedTable
  rw [hA]
  have hens : ensureAll
      { cols := t2.cols ++ [keyColName], rows := t2.rows.map (keyedRow rc) }
      = { cols := t2.cols ++ [keyColName], rows := t2.rows.map (keyedRow rc) } := by
    apply ensureAll_nop
    · intro pm hpm
      exact List.mem_append_left _ (hp2 pm hpm)
    · exact List.mem_append_left _ ht2tot
  rw [hens]
  have hmark : markAll
      { cols := t2.cols ++ [keyColName], rows := t2.rows.map (keyedRow rc) } att s
      = { cols := t2.cols ++ [keyColName], rows := t2.rows.map (keyedRow rc) } := by
    unfold markAll
    simp only
    congr 1
    rw [List.map_map]
    apply List.map_congr_left
    intro r0 hr0
    simp only [Function.comp_apply]
    exact hrowfix r0 hr0
  rw [hmark]
  unfold dropColumn
  simp only
  have hc2 : (t2.cols ++ [keyColName]).filter (fun c2 => decide (c2 ≠ keyColName))
      = t2.cols := by
    rw [List.filter_append]
    have h1 : t2.cols.filter (fun c2 => decide (c2 ≠ keyColName)) = t2.cols := by
      rw [List.filter_eq_self]
      intro a ha
      rw [decide_eq_true_eq]
      intro hh
      subst hh
      exact hkeynot ha
    have h2 : ([keyColName]).filter (fun c2 => decide (c2 ≠ keyColName)) = [] := by
      decide
    rw [h1, h2, List.append_nil]
  have hrws : (t2.rows.map (keyedRow rc)).map
      (fun r => r.filter (fun p => decide (p.1 ≠ keyColName))) = t2.rows := by
    rw [List.map_map]
    have hid : ∀ r0 ∈ t2.rows,
        ((fun r => List.filter (fun p => decide (p.1 ≠ keyColName)) r) ∘ keyedRow rc) r0
          = r0 := by
      intro r0 hr0
      simp only [Function.comp_apply]
      unfold keyedRow
      rw [List.filter_append]
      have h1 : r0.filter (fun p => decide (p.1 ≠ keyColName)) = r0 := by
        rw [List.filter_eq_self]
        intro p hp
        rw [decide_eq_true_eq]
        intro hh
        have hpn : p.1 ∈ r0.map Prod.fst := List.mem_map_of_mem Prod.fst hp
        rw [hwf2.1 r0 hr0] at hpn
        rw [hh] at hpn
        exact hkeynot hpn
      have h2 : ([(keyColName, keyCell (extract_roll_number (getCell r0 rc)))]).filter
          (fun p => decide (p.1 ≠ keyColName)) = [] := by
        simp
      rw [h1, h2, List.append_nil]
    rw [List.map_congr_left hid]
    exact List.map_id t2.rows
  rw [hc2, hrws]

theorem c2_counterexample :
    process_experiment wtab9 watt (sessionLabel 1) = Except.ok wout9
    ∧ process_experiment wout9 watt (sessionLabel 1)
        = Except.error ("No roll number column found.")
    ∧ (process_experiment wtab9 watt (sessionLabel 1)).bind
          (fun t1 => process_experiment t1 watt (sessionLabel 1))
        ≠ process_experiment wtab9 watt (sessionLabel 1) := by
  refine ⟨by decide, by decide, by decide⟩

theorem c2_witness :
    (wtab.WF ∧ find_roll_column wtab.cols = Option.some ("Roll No")
      ∧ (("Roll No" : String)) ≠ keyColName
      ∧ process_experiment wtab watt (sessionLabel 1) = Except.ok wout)
    ∧ process_experiment wout watt (sessionLabel 1) = Except.ok wout :=
  ⟨⟨by decide, by decide, by decide, by decide⟩,
   c2_amended_idempotent wtab watt (sessionLabel 1) wout ("Roll No")
     (by decide) (by decide) (by decide) (by decide)⟩

-- Claim theorems: the main loop ----------------------------------------------

theorem mainLoop_eq_flatMap (att : List AttRecord) (files : List FileInput)
    (acc : List Event) :
    mainLoop att files acc = acc ++ files.flatMap (perFileEvents att) := by
  induction files generalizing acc with
  | nil =>
      unfold mainLoop
      rw [List.flatMap_nil, List.append_nil]
  | cons f fs ih =>
      unfold mainLoop
      rw [ih (acc ++ perFileEvents att f), List.flatMap_cons, List.append_assoc]

/-- C4.  A per-file error (unreadable file, missing roll column, unknown
session label, failed write) is reported as one `fileError` event carrying
the filename, contributes no written table, and leaves every other file's
events unchanged (the run's events are the concatenation of independent
per-file events); a missing attendance file or a `load_attendance` failure
is fatal: the run aborts with no events at all, before any file is
processed. -/
theorem c4_error_isolation (attRows : List (List String)) (files : List FileInput) :
    (mainModel false attRows files = RunResult.fatal ("Attendance file not found."))
    ∧ (∀ e, load_attendance attRows = Except.error e →
        mainModel true attRows files = RunResult.fatal e)
    ∧ (∀ att, load_attendance attRows = Except.ok att →
        mainModel true attRows files
          = RunResult.completed (files.flatMap (perFileEvents att)))
    ∧ (∀ att (f : FileInput) (msg : String),
        Event.fileError f.fname msg ∈ perFileEvents att f →
        ∀ t2, Event.written f.fname t2 ∉ perFileEvents att f) := by
  refine ⟨?_, ?_, ?_, ?_⟩
  · unfold mainModel
    rw [if_pos rfl]
  · intro e he
    unfold mainModel
    simp only [he]
    rfl
  · intro att hok
    unfold mainModel
    simp only [hok]
    rw [mainLoop_eq_flatMap att files []]
    rfl
  · intro att f msg hmem t2 hw
    unfold perFileEvents at hmem hw
    cases hc : classifyFilename f.fname with
    | skipSilent =>
        simp only [hc] at hmem
        exact absurd hmem (List.not_mem_nil _)
    | skipWarn =>
        simp only [hc] at hmem
        rw [List.mem_singleton] at hmem
        cases hmem
    | process s2 =>
        simp only [hc] at hmem hw
        cases hr : f.readResult with
        | error e =>
            simp only [hr] at hw
            rw [List.mem_singleton] at hw
            cases hw
        | ok tt =>
            simp only [hr] at hmem hw
            cases hp : process_experiment tt att s2 with
            | error e =>
                simp only [hp] at hw
                rw [List.mem_singleton] at hw
                cases hw
            | ok t3 =>
                simp only [hp] at hmem hw
                by_cases hwok : f.writeOk = true
                · rw [if_pos hwok] at hmem
                  rw [List.mem_singleton] at hmem
                  cases hmem
                · rw [if_neg hwok] at hw
                  rw [List.mem_singleton] at hw
                  cases hw

def c4att : List AttRecord :=
  [{ rollRaw := ("14")
     name := ("Jane")
     surname := ("Doe")
     sessions := [true, false, false, false] }]

def c4file : FileInput :=
  { fname := ("experiment_3.xlsx").data
    readResult := Except.error ("read failed")
    writeOk := true }

def c4files : List FileInput :=
  [c4file,
   { fname := ("experiment_1.xlsx").data
     readResult := Except.ok wtab3
     writeOk := true }]

theorem c4_witness :
    (load_attendance c6rows = Except.ok c4att
      ∧ mainModel true c6rows c4files
          = RunResult.completed (c4files.flatMap (perFileEvents c4att)))
    ∧ (Event.fileError c4file.fname ("read failed") ∈ perFileEvents c4att c4file
      ∧ ∀ t2, Event.written c4file.fname t2 ∉ perFileEvents c4att c4file) :=
  ⟨⟨by decide, (c4_error_isolation c6rows c4files).2.2.1 c4att (by decide)⟩,
   ⟨by decide,
    fun t2 => (c4_error_isolation c6rows c4files).2.2.2 c4att c4file
      ("read failed") (by decide) t2⟩⟩

-- Lemmas: filename classification --------------------------------------------

theorem lowerChar_underscore (c : Char) (h : lowerChar c = '_') : c = '_' := by
  unfold lowerChar at h
  cases hf : upperLowerPairs.find? (fun p => p.1 = c) with
  | none =>
      rw [hf] at h
      exact h
  | some p =>
      rw [hf] at h
      have hp := List.mem_of_find?_eq_some hf
      have hall : ∀ q ∈ upperLowerPairs, q.2 ≠ '_' := by decide
      exact absurd h (hall p hp)

theorem lowerChar_dot (c : Char) (h : lowerChar c = '.') : c = '.' := by
  unfold lowerChar at h
  cases hf : upperLowerPairs.find? (fun p => p.1 = c) with
  | none =>
      rw [hf] at h
      exact h
  | some p =>
      rw [hf] at h
      have hp := List.mem_of_find?_eq_some hf
      have hall : ∀ q ∈ upperLowerPairs, q.2 ≠ '.' := by decide
      exact absurd h (hall p hp)

theorem splitOnSep_cons (sep c : Char) (rest : List Char) :
    splitOnSep sep (c :: rest)
      = match splitOnSep sep rest with
        | [] => [[]]
        | g :: gs => if c = sep then [] :: g :: gs else (c :: g) :: gs := rfl

theorem splitOnSep_ne_nil (sep : Char) (l : List Char) : splitOnSep sep l ≠ [] := by
  cases l with
  | nil => simp [splitOnSep]
  | cons c rest =>
      cases h : splitOnSep sep rest with
      | nil => simp [splitOnSep_cons, h]
      | cons g gs =>
          by_cases hc : c = sep
          · simp [splitOnSep_cons, h, hc]
          · simp [splitOnSep_cons, h, hc]

theorem splitOnSep_two_chunks (sep : Char) (l : List Char) (h : sep ∈ l) :
    2 ≤ (splitOnSep sep l).length := by
  induction l with
  | nil => cases h
  | cons c rest ih =>
      cases hs : splitOnSep sep rest with
      | nil => exact absurd hs (splitOnSep_ne_nil sep rest)
      | cons g gs =>
          by_cases hc : c = sep
          · simp only [splitOnSep_cons, hs, if_pos hc, List.length_cons]
            omega
          · simp only [splitOnSep_cons, hs, if_neg hc, List.length_cons]
            have hr : sep ∈ rest := by
              rcases List.mem_cons.mp h with heq | hq
              · exact absurd heq.symm hc
              · exact hq
            have h2 := ih hr
            rw [hs] at h2
            simp only [List.length_cons] at h2
            omega

theorem exists_get?_of_lt {α : Type} (l : List α) (i : Nat) (h : i < l.length) :
    ∃ x, l.get? i = Option.some x := by
  refine ⟨l[i], ?_⟩
  rw [List.get?_eq_getElem?, List.getElem?_eq_getElem h]

theorem splitextStem_eq (g e2 : List Char) (hnd : '.' ∉ e2)
    (hg : ∃ c ∈ g, ¬ c = '.') : splitextStem (g ++ '.' :: e2) = g := by
  unfold splitextStem
  have hrev : (g ++ '.' :: e2).reverse = e2.reverse ++ '.' :: g.reverse := by
    rw [List.reverse_append, List.reverse_cons, List.append_assoc, List.singleton_append]
  have hfind : (g ++ '.' :: e2).reverse.findIdx? (fun c => c = '.')
      = Option.some e2.length := by
    rw [hrev, List.findIdx?_append]
    have h1 : e2.reverse.findIdx? (fun c => c = '.') = Option.none := by
      rw [List.findIdx?_eq_none_iff]
      intro x hx
      rw [decide_eq_false_iff_not]
      intro hh
      rw [hh] at hx
      exact hnd (List.mem_reverse.mp hx)
    rw [h1]
    simp only [Option.none_or]
    have h2 : ('.' :: g.reverse).findIdx? (fun c => c = '.') = Option.some 0 := by
      rw [List.findIdx?_cons]
      simp
    rw [h2]
    simp [List.length_reverse]
  simp only [hfind]
  have hj : (g ++ '.' :: e2).length - 1 - e2.length = g.length := by
    rw [List.length_append, List.length_cons]
    omega
  rw [hj]
  have htake : (g ++ '.' :: e2).take g.length = g := List.take_left' rfl
  rw [htake]
  obtain ⟨c, hc, hcd⟩ := hg
  rw [if_pos (List.any_eq_true.mpr ⟨c, hc, by rw [decide_eq_true_eq]; exact hcd⟩)]

theorem stem_has_underscore (u v g e2 : List Char)
    (hulen : u.length = 10)
    (humap : u.map lowerChar = ("experiment").data)
    (hcs2 : u ++ '_' :: v = g ++ '.' :: e2) :
    '_' ∈ g := by
  have hlow : lowerChar '.' = '.' := by decide
  have hlen : u.length + 1 + v.length = g.length + 1 + e2.length := by
    have h1 := congrArg List.length hcs2
    simp only [List.length_append, List.length_cons] at h1
    omega
  rcases Nat.lt_trichotomy g.length 10 with hlt | heq | hgt
  · exfalso
    have hbound : g.length < (u ++ '_' :: v).length := by
      simp only [List.length_append, List.length_cons]
      omega
    have hbu : g.length < u.length := by omega
    have h1 : (u ++ '_' :: v)[g.length] = '.' := by
      rw [List.getElem_of_eq hcs2]
      rw [List.getElem_append_right (Nat.le_refl g.length)]
      simp
    have h2 : (u ++ '_' :: v)[g.length] = u[g.length] := List.getElem_append_left hbu
    have h3 : u[g.length] = '.' := by
      rw [← h2, h1]
    have h4 : lowerChar (u[g.length]) ∈ u.map lowerChar :=
      List.mem_map_of_mem lowerChar (List.getElem_mem hbu)
    rw [humap, h3, hlow] at h4
    exact absurd h4 (by decide)
  · exfalso
    have hbound : 10 < (u ++ '_' :: v).length := by
      simp only [List.length_append, List.length_cons]
      omega
    have h1 : (u ++ '_' :: v)[10] = '_' := by
      rw [List.getElem_append_right (by omega : u.length ≤ 10)]
      have h0 : 10 - u.length = 0 := by omega
      simp only [h0, List.getElem_cons_zero]
    have h2 : (u ++ '_' :: v)[10] = '.' := by
      rw [List.getElem_of_eq hcs2]
      rw [List.getElem_append_right (by omega : g.length ≤ 10)]
      have h0 : 10 - g.length = 0 := by omega
      simp only [h0, List.getElem_cons_zero]
    rw [h1] at h2
    cases h2
  · have hbound : 10 < (u ++ '_' :: v).length := by
      simp only [List.length_append, List.length_cons]
      omega
    have h1 : (u ++ '_' :: v)[10] = '_' := by
      rw [List.getElem_append_right (by omega : u.length ≤ 10)]
      have h0 : 10 - u.length = 0 := by omega
      simp only [h0, List.getElem_cons_zero]
    have h2 : (u ++ '_' :: v)[10] = g[10] := by
      rw [List.getElem_of_eq hcs2]
      exact List.getElem_append_left hgt
    rw [h1] at h2
    exact h2.symm ▸ List.getElem_mem hgt

theorem nameFilter_segment (cs : List Char) (h : nameFilter cs = true) :
    ∃ seg, (splitOnSep '_' (splitextStem cs)).get? 1 = Option.some seg := by
  unfold nameFilter pyLower at h
  rw [Bool.and_eq_true] at h
  obtain ⟨hpre, hsuf⟩ := h
  obtain ⟨t, ht⟩ := List.isPrefixOf_iff_prefix.mp hpre
  have hsplit : ("experiment_").data = ("experiment").data ++ ['_'] := by decide
  have ht2 : cs.map lowerChar = ("experiment").data ++ '_' :: t := by
    rw [← ht, hsplit, List.append_assoc, List.singleton_append]
  rw [List.map_eq_append_iff] at ht2
  obtain ⟨u, rest2, hcs1, hu, hrest⟩ := ht2
  rw [List.map_eq_cons_iff] at hrest
  obtain ⟨x, v, hrv, hx, hv⟩ := hrest
  have hxu : x = '_' := lowerChar_underscore x hx
  subst hxu
  subst hrv
  have hulen : u.length = 10 := by
    have hl := congrArg List.length hu
    rw [List.length_map] at hl
    rw [hl]
    decide
  have hld : lowerChar '.' = '.' := by decide
  have hdot : ∃ g e2, cs = g ++ '.' :: e2 ∧ '.' ∉ e2 := by
    rw [Bool.or_eq_true] at hsuf
    rcases hsuf with hx1 | hx2
    · obtain ⟨w, hw⟩ := List.isSuffixOf_iff_suffix.mp hx1
      have hw2 : cs.map lowerChar = w ++ '.' :: (['x', 'l', 's']) := by
        rw [← hw]
      rw [List.map_eq_append_iff] at hw2
      obtain ⟨g, e, hcs2, hgm, hem⟩ := hw2
      rw [List.map_eq_cons_iff] at hem
      obtain ⟨e0, e1, he1, he0, hes⟩ := hem
      have he0d : e0 = '.' := lowerChar_dot e0 he0
      subst he0d
      subst he1
      refine ⟨g, e1, hcs2, ?_⟩
      intro hdot2
      have hmem : lowerChar '.' ∈ e1.map lowerChar := List.mem_map_of_mem lowerChar hdot2
      rw [hes, hld] at hmem
      exact absurd hmem (by decide)
    · obtain ⟨w, hw⟩ := List.isSuffixOf_iff_suffix.mp hx2
      have hw2 : cs.map lowerChar = w ++ '.' :: (['x', 'l', 's', 'x']) := by
        rw [← hw]
      rw [List.map_eq_append_iff] at hw2
      obtain ⟨g, e, hcs2, hgm, hem⟩ := hw2
      rw [List.map_eq_cons_iff] at hem
      obtain ⟨e0, e1, he1, he0, hes⟩ := hem
      have he0d : e0 = '.' := lowerChar_dot e0 he0
      subst he0d
      subst he1
      refine ⟨g, e1, hcs2, ?_⟩
      intro hdot2
      have hmem : lowerChar '.' ∈ e1.map lowerChar := List.mem_map_of_mem lowerChar hdot2
      rw [hes, hld] at hmem
      exact absurd hmem (by decide)
  obtain ⟨g, e2, hcs2, hnd⟩ := hdot
  have hund : '_' ∈ g := by
    apply stem_has_underscore u v g e2 hulen hu
    rw [← hcs1]
    exact hcs2
  have hstem : splitextStem cs = g := by
    rw [hcs2]
    apply splitextStem_eq g e2 hnd
    exact ⟨'_', hund, by decide⟩
  rw [hstem]
  apply exists_get?_of_lt
  have := splitOnSep_two_chunks '_' g hund
  omega

theorem c5_counterexample :
    classifyFilename (("experiment_abc.xlsx").data)
        = FileAction.process ("Session abc")
    ∧ classifyFilename (("experiment_abc.xlsx").data) ≠ FileAction.skipWarn :=
  ⟨by decide, by decide⟩

/-- C5 (amended).  Filenames failing the `experiment_` start or the
`.xls`/`.xlsx` end (case-insensitive) are skipped silently; every filename
passing the filter is processed with session column `Session <seg>` where
`<seg>` is the stem's second underscore-separated chunk; the warning branch
(the guarded `except` of source lines 163-165) is unreachable, so no file is
ever skipped with a warning — a non-numeric segment is processed and fails
per-file instead. -/
theorem c5_amended_classification (fname : List Char) :
    (nameFilter fname = false ↔ classifyFilename fname = FileAction.skipSilent)
    ∧ classifyFilename fname ≠ FileAction.skipWarn
    ∧ (nameFilter fname = true →
        ∃ seg, (splitOnSep '_' (splitextStem fname)).get? 1 = Option.some seg
          ∧ classifyFilename fname
              = FileAction.process (String.mk ((("Session ").data) ++ seg))) := by
  by_cases hf : nameFilter fname = true
  · obtain ⟨seg, hseg⟩ := nameFilter_segment fname hf
    have hne2 : ¬ (nameFilter fname = false) := by
      rw [hf]
      intro hc
      cases hc
    have hcl : classifyFilename fname
        = FileAction.process (String.mk ((("Session ").data) ++ seg)) := by
      unfold classifyFilename
      rw [if_neg hne2]
      simp only [hseg]
    refine ⟨⟨?_, ?_⟩, ?_, ?_⟩
    · intro hff
      exact absurd hff hne2
    · intro hcs
      rw [hcl] at hcs
      cases hcs
    · rw [hcl]
      intro hcs
      cases hcs
    · intro _
      exact ⟨seg, hseg, hcl⟩
  · have hff : nameFilter fname = false := by
      cases hq : nameFilter fname with
      | true => exact absurd hq hf
      | false => rfl
    have hcl : classifyFilename fname = FileAction.skipSilent := by
      unfold classifyFilename
      rw [if_pos hff]
    refine ⟨⟨fun _ => hcl, fun _ => hff⟩, ?_, ?_⟩
    · rw [hcl]
      intro hcs
      cases hcs
    · intro htr
      exact absurd htr hf

theorem c5_witness :
    nameFilter (("experiment_abc.xlsx").data) = true
    ∧ ∃ seg,
        (splitOnSep '_' (splitextStem (("experiment_abc.xlsx").data))).get? 1
          = Option.some seg
        ∧ classifyFilename (("experiment_abc.xlsx").data)
            = FileAction.process (String.mk ((("Session ").data) ++ seg)) :=
  ⟨by decide,
   (c5_amended_classification (("experiment_abc.xlsx").data)).2.2 (by decide)⟩
